import Mathlib

/-
Shallow embedding of src/src/spellCheckerProvider.ts (electron-hunspell).

JavaScript objects used as string-keyed tables are modelled as insertion
ordered association lists; Object.keys enumeration order is the list order.
Date.now timestamps are natural numbers passed explicitly to the operations
that read the clock; the field currentSpellCheckerStartTime is an Option Nat,
where none models the initial value Number.NEGATIVE_INFINITY, so that
Number.isInteger corresponds to Option.isSome.  Uptime counters are integers
because they are sums of timestamp differences.

The external hunspell-asm engine is not part of this repository; its factory
is modelled from the spec (sections 4.2 and 6): a virtual-filesystem mount
table in which mounting a directory is idempotent per unique physical
directory and returns the virtual mount point, mounting a buffer always
creates a fresh mount, and unmount removes a mount by virtual path.  Engine
instances (factory.create results) are modelled as a pair of pure functions
spell and suggest supplied by the environment at load time; instance
disposal has no observable effect in this model.
-/

namespace ElectronHunspell

/-- Association list lookup modelling a JavaScript object property read:
returns the value stored at the first matching key, none when absent. -/
def lookupEntry {α : Type} : List (String × α) → String → Option α
  | [], _ => none
  | (k, v) :: rest, key => if k = key then some v else lookupEntry rest key

/-- Association list write modelling a JavaScript object property
assignment: updates the first occurrence in place, otherwise appends the
new key at the end (JavaScript insertion order). -/
def setEntry {α : Type} : List (String × α) → String → α → List (String × α)
  | [], key, v => [(key, v)]
  | (k, w) :: rest, key, v =>
    if k = key then (k, v) :: rest else (k, w) :: setEntry rest key v

/-- Association list removal modelling the JavaScript delete operator. -/
def eraseEntry {α : Type} : List (String × α) → String → List (String × α)
  | [], _ => []
  | (k, w) :: rest, key =>
    if k = key then eraseEntry rest key else (k, w) :: eraseEntry rest key

/-- A file location split into directory and base name, modelling the
node path functions dirname, basename and join without string parsing. -/
structure FsPath where
  dir : String
  base : String
deriving DecidableEq

/-- Modelled from the spec: a hunspell engine instance as created by
factory.create, exposing spell and suggest (spec section 6). -/
structure Hunspell where
  spell : String → Bool
  suggest : String → List String

/-- Modelled from the spec: the state of the external engine factory
virtual filesystem.  dirMounts maps each mounted physical directory to its
virtual mount point, in mount order; bufMounts lists virtual buffer mount
paths; counter generates fresh virtual paths. -/
structure HunspellFactory where
  dirMounts : List (String × String)
  bufMounts : List String
  counter : Nat

/-- Modelled from the spec: factory.mountDirectory mounts a physical
directory once per unique directory (idempotent) and returns its virtual
mount point (spec sections 4.2 and 6). -/
def HunspellFactory.mountDirectory (f : HunspellFactory) (dir : String) :
    String × HunspellFactory :=
  match lookupEntry f.dirMounts dir with
  | some mp => (mp, f)
  | none =>
    let mp := "/mnt/" ++ toString f.counter
    (mp, { f with dirMounts := f.dirMounts ++ [(dir, mp)], counter := f.counter + 1 })

/-- Modelled from the spec: factory.mountBuffer mounts an in-memory buffer
at a fresh virtual path; buffer mounts are never shared (spec section 4.2). -/
def HunspellFactory.mountBuffer (f : HunspellFactory) : String × HunspellFactory :=
  let mp := "/buf/" ++ toString f.counter
  (mp, { f with bufMounts := f.bufMounts ++ [mp], counter := f.counter + 1 })

/-- Modelled from the spec: factory.unmount releases the mount with the
given virtual path, whether a directory mount point or a buffer path. -/
def HunspellFactory.unmount (f : HunspellFactory) (p : String) : HunspellFactory :=
  { f with
    dirMounts := f.dirMounts.filter (fun kv => kv.2 ≠ p),
    bufMounts := f.bufMounts.filter (fun q => q ≠ p) }

/-- The physical directories currently mounted in the factory. -/
def HunspellFactory.mountedDirs (f : HunspellFactory) : List String :=
  f.dirMounts.map Prod.fst

/-- The data captured by the dispose closure built in assignSpellchecker:
either the two virtual file paths of a file dictionary (unmountFile) or the
two virtual buffer paths of a buffer dictionary (unmountBuffer). -/
inductive DisposeInfo where
  | file (affPath dicPath : FsPath)
  | buffer (affPath dicPath : String)
deriving DecidableEq

/-- One row of spellCheckerTable: the engine instance, the accumulated
uptime in milliseconds, and the captured dispose data. -/
structure SpellChecker where
  spellChecker : Hunspell
  uptime : Int
  disposeInfo : DisposeInfo

/-- The spell-check callback currently installed in the webFrame: either
the provider closure built by attach, which captured the primary key and
the checkAllDictionaries flag, or the always-true callback installed by
unloadDictionary when the current dictionary is unloaded. -/
inductive InstalledCallback where
  | checker (key : String) (checkAll : Bool)
  | alwaysCorrect (key : String)
deriving DecidableEq

/-- The mutable state of a SpellCheckerProvider instance, together with the
modelled external state it drives: the engine factory and the webFrame
callback slot.  isRenderer models the process.type check in setProvider and
is constant across operations. -/
structure SpellCheckerProvider where
  hunspellFactory : HunspellFactory
  spellCheckerTable : List (String × SpellChecker)
  currentSpellCheckerKey : Option String
  currentSpellCheckerStartTime : Option Nat
  fileMountRefCount : List (String × Int)
  isRenderer : Bool
  installedCallback : Option InstalledCallback

/-- A fresh provider, as constructed before any dictionary is loaded. -/
def SpellCheckerProvider.init (isRenderer : Bool) : SpellCheckerProvider :=
  { hunspellFactory := { dirMounts := [], bufMounts := [], counter := 0 }
    spellCheckerTable := []
    currentSpellCheckerKey := none
    currentSpellCheckerStartTime := none
    fileMountRefCount := []
    isRenderer := isRenderer
    installedCallback := none }

/-- The keys of the dictionary table, in insertion order, as produced by
Object.keys. -/
def tableKeys (table : List (String × SpellChecker)) : List String :=
  table.map Prod.fst

/-- The increaseRefCount closure in assignSpellchecker: keyed by the
directory of the mounted file path; a falsy stored value (absent entry or
zero) becomes one, otherwise the value is incremented. -/
def increaseRefCount (rc : List (String × Int)) (filePath : FsPath) :
    List (String × Int) :=
  let dir := filePath.dir
  match lookupEntry rc dir with
  | some v => if v ≠ 0 then setEntry rc dir (v + 1) else setEntry rc dir 1
  | none => setEntry rc dir 1

/-- The decreaseRefCount closure in assignSpellchecker: decrements the
count when positive, deletes the entry when it equals zero, and returns
the remaining count, where a falsy stored value reads as zero. -/
def decreaseRefCount (rc : List (String × Int)) (filePath : FsPath) :
    Int × List (String × Int) :=
  let dir := filePath.dir
  let rc1 :=
    match lookupEntry rc dir with
    | some v => if v > 0 then setEntry rc dir (v - 1) else rc
    | none => rc
  let rc2 :=
    match lookupEntry rc1 dir with
    | some v => if v = 0 then eraseEntry rc1 dir else rc1
    | none => rc1
  let ref :=
    match lookupEntry rc2 dir with
    | some v => if v ≠ 0 then v else 0
    | none => 0
  (ref, rc2)

/-- One iteration of the loop in the unmountFile closure: decrement the
ref count of the directory of the path and unmount the directory exactly
when the returned count is zero. -/
def unmountOne (st : HunspellFactory × List (String × Int)) (p : FsPath) :
    HunspellFactory × List (String × Int) :=
  let (ref, rc) := decreaseRefCount st.2 p
  if ref = 0 then (st.1.unmount p.dir, rc) else (st.1, rc)

/-- The unmountFile closure: processes the affix path then the dictionary
path.  The final spellChecker.dispose call has no observable effect in
this model. -/
def unmountFile (st : HunspellFactory × List (String × Int))
    (affPath dicPath : FsPath) : HunspellFactory × List (String × Int) :=
  unmountOne (unmountOne st affPath) dicPath

/-- Dispatch of a stored dispose closure: unmountFile for file
dictionaries, unmountBuffer for buffer dictionaries (which unmounts the
two buffer paths directly and touches no ref count). -/
def applyDispose (st : HunspellFactory × List (String × Int)) :
    DisposeInfo → HunspellFactory × List (String × Int)
  | .file affPath dicPath => unmountFile st affPath dicPath
  | .buffer affPath dicPath => ((st.1.unmount affPath).unmount dicPath, st.2)

/-- The spell result of the dictionary registered under a key, false when
the key is absent. -/
def spellOf (table : List (String × SpellChecker)) (text : String)
    (key : String) : Bool :=
  match lookupEntry table key with
  | some sc => sc.spellChecker.spell text
  | none => false

/-- The loop at the end of the provider closure in attach: queries the
other dictionaries in order and returns true as soon as one accepts the
text, false when all reject it.  Keys always come from the table, so the
absent-key branch is unreachable. -/
def checkOthers (table : List (String × SpellChecker)) (text : String) :
    List String → Bool
  | [] => false
  | dictKey :: rest =>
    match lookupEntry table dictKey with
    | some sc => if sc.spellChecker.spell text then true else checkOthers table text rest
    | none => false

/-- The provider closure built by attach, evaluated against the table as
it stands at invocation time (the closure reads this.spellCheckerTable on
every call).  Returns none when the captured primary key is no longer in
the table, where the JavaScript closure would throw. -/
def providerSpell (table : List (String × SpellChecker)) (key : String)
    (checkAllDictionaries : Bool) (text : String) : Option Bool :=
  match lookupEntry table key with
  | none => none
  | some primaryChecker =>
    let primaryResult := primaryChecker.spellChecker.spell text
    let otherDictionaries := (tableKeys table).filter (fun x => x ≠ key)
    if ¬checkAllDictionaries ∨ otherDictionaries.length = 0 ∨ primaryResult = true then
      some primaryResult
    else
      some (checkOthers table text otherDictionaries)

/-- Invocation of whatever callback is currently installed in the
webFrame, against the current provider state; none when no callback was
ever installed. -/
def invokeInstalled (s : SpellCheckerProvider) (text : String) : Option Bool :=
  match s.installedCallback with
  | none => none
  | some (.alwaysCorrect _) => some true
  | some (.checker key checkAll) =>
    providerSpell s.spellCheckerTable key checkAll text

/-- setProvider: installs a callback through webFrame.setSpellCheckProvider
inside a renderer process, and is a logged no-op elsewhere. -/
def setProvider (s : SpellCheckerProvider) (cb : InstalledCallback) :
    SpellCheckerProvider :=
  if s.isRenderer then { s with installedCallback := some cb } else s

/-- attach: installs the provider closure capturing the key and the
checkAllDictionaries flag. -/
def attach (s : SpellCheckerProvider) (key : String) (checkAll : Bool) :
    SpellCheckerProvider :=
  setProvider s (.checker key checkAll)

/-- switchDictionary.  The parameter now models Date.now, read once for
the whole call (the source reads it twice a few statements apart; both
reads are the same instant here).  On the not-found throw the returned
state is the state at the throw point, which precedes every mutation.
The uptime flush runs only when the start time is an integer, so never on
a fresh provider, and only credits a truthy current key; the current key
is always present in the table in reachable states, and the absent branch
leaves the state unchanged where the JavaScript would throw. -/
def switchDictionary (s : SpellCheckerProvider) (key : String)
    (checkAllDictionaries : Bool) (now : Nat) :
    SpellCheckerProvider × Except String Unit :=
  if key = "" ∨ (lookupEntry s.spellCheckerTable key).isNone then
    (s, .error ("Spellchecker dictionary for " ++ key ++
      " is not available, ensure dictionary loaded"))
  else
    let s1 :=
      match s.currentSpellCheckerStartTime with
      | none => s
      | some startTime =>
        let timePassed : Int := (now : Int) - (startTime : Int)
        match s.currentSpellCheckerKey with
        | none => s
        | some currentKey =>
          if currentKey = "" then s
          else
            match lookupEntry s.spellCheckerTable currentKey with
            | none => s
            | some entry =>
              let flushed := { entry with uptime := entry.uptime + timePassed }
              { s with spellCheckerTable :=
                  setEntry s.spellCheckerTable currentKey flushed }
    let s2 := { s1 with
      currentSpellCheckerStartTime := some now
      currentSpellCheckerKey := some key }
    (attach s2 key checkAllDictionaries, .ok ())

/-- getSuggestion: bails with an empty list when the current key is falsy
or has no table entry, otherwise returns the suggestion list of the
selected engine verbatim. -/
def getSuggestion (s : SpellCheckerProvider) (text : String) : List String :=
  match s.currentSpellCheckerKey with
  | none => []
  | some currentKey =>
    if currentKey = "" then []
    else
      match lookupEntry s.spellCheckerTable currentKey with
      | none => []
      | some checker => checker.spellChecker.suggest text

/-- One of the two overloads of the dictionary and affix arguments of
loadDictionary: a file path (string) or an ArrayBufferView. -/
inductive DictSource where
  | filePath (p : FsPath)
  | buffer
deriving DecidableEq

/-- loadDictionary.  The engine parameter models the factory.create result
for the mounted paths, supplied by the environment.  Both throws happen
before any mutation, so the state at a throw is the input state.  In the
file case the affix path is mounted before the dictionary path (object
literal evaluation order in mountFileDictionary), and assignSpellchecker
then increments the ref count of the affix path before the dictionary
path; the buffer case mounts the two buffers and touches no ref count. -/
def loadDictionary (s : SpellCheckerProvider) (key : String)
    (dic aff : DictSource) (engine : Hunspell) :
    SpellCheckerProvider × Except String Unit :=
  if key = "" ∨ (lookupEntry s.spellCheckerTable key).isSome then
    (s, .error ("Invalid key: " ++
      if key ≠ "" then "already registered key" else "key is empty"))
  else
    match dic, aff with
    | .buffer, .buffer =>
      let (affPath, f1) := s.hunspellFactory.mountBuffer
      let (dicPath, f2) := f1.mountBuffer
      let entry : SpellChecker :=
        { spellChecker := engine, uptime := 0
          disposeInfo := .buffer affPath dicPath }
      ({ s with
          hunspellFactory := f2
          spellCheckerTable := setEntry s.spellCheckerTable key entry }, .ok ())
    | .filePath dicFilePath, .filePath affFilePath =>
      let (affMount, f1) := s.hunspellFactory.mountDirectory affFilePath.dir
      let affPath : FsPath := { dir := affMount, base := affFilePath.base }
      let (dicMount, f2) := f1.mountDirectory dicFilePath.dir
      let dicPath : FsPath := { dir := dicMount, base := dicFilePath.base }
      let rc1 := increaseRefCount s.fileMountRefCount affPath
      let rc2 := increaseRefCount rc1 dicPath
      let entry : SpellChecker :=
        { spellChecker := engine, uptime := 0
          disposeInfo := .file affPath dicPath }
      ({ s with
          hunspellFactory := f2
          fileMountRefCount := rc2
          spellCheckerTable := setEntry s.spellCheckerTable key entry }, .ok ())
    | _, _ => (s, .error ("Cannot load dictionary for given parameters"))

/-- unloadDictionary: a logged no-op when the key is falsy or unregistered;
otherwise, when the key is the truthy current key, clears the selection,
resets the start time to the initial value and substitutes the always-true
callback, then in every registered case invokes the dispose closure and
deletes the table entry. -/
def unloadDictionary (s : SpellCheckerProvider) (key : String) :
    SpellCheckerProvider :=
  if key = "" ∨ (lookupEntry s.spellCheckerTable key).isNone then s
  else
    let isCurrent : Bool :=
      match s.currentSpellCheckerKey with
      | some currentKey => currentKey ≠ "" && currentKey == key
      | none => false
    let s1 :=
      if isCurrent then
        setProvider
          { s with
            currentSpellCheckerKey := none
            currentSpellCheckerStartTime := none }
          (.alwaysCorrect key)
      else s
    match lookupEntry s1.spellCheckerTable key with
    | none => s1
    | some dict =>
      let (f, rc) := applyDispose (s1.hunspellFactory, s1.fileMountRefCount)
        dict.disposeInfo
      { s1 with
        hunspellFactory := f
        fileMountRefCount := rc
        spellCheckerTable := eraseEntry s1.spellCheckerTable key }

/-- Stable descending insertion by uptime: the new element is placed
before the first strictly smaller uptime and after every earlier element
with greater or equal uptime. -/
def insertDesc (x : String × Int) : List (String × Int) → List (String × Int)
  | [] => [x]
  | y :: ys => if y.2 ≤ x.2 then x :: y :: ys else y :: insertDesc x ys

/-- Stable sort by descending uptime, modelling lodash orderBy with keys
uptime and order desc (lodash orderBy is a stable sort, and a stable sort
is uniquely determined by its comparator, so insertion sort coincides with
it).  The input is processed left to right, each element inserted into the
sorted tail of its predecessors. -/
def orderByUptimeDesc (l : List (String × Int)) : List (String × Int) :=
  l.foldr insertDesc []

/-- availableDictionaries: maps the table to key and uptime pairs (in
Object.keys order, which is the list order) and returns the keys sorted by
descending uptime. -/
def availableDictionaries (s : SpellCheckerProvider) : List String :=
  let array := s.spellCheckerTable.map (fun kv => (kv.1, kv.2.uptime))
  (orderByUptimeDesc array).map Prod.fst

/-- One state-mutating call of the caller-facing surface, without its
timestamp. -/
inductive Op where
  | load (key : String) (dic aff : DictSource) (engine : Hunspell)
  | unload (key : String)
  | switch (key : String) (checkAll : Bool)

/-- One call with the Date.now value observed during it. -/
def step (s : SpellCheckerProvider) : Op × Nat → SpellCheckerProvider
  | (.load key dic aff engine, _) => (loadDictionary s key dic aff engine).1
  | (.unload key, _) => unloadDictionary s key
  | (.switch key checkAll, now) => (switchDictionary s key checkAll now).1

/-- A sequence of calls applied in order. -/
def run (s : SpellCheckerProvider) : List (Op × Nat) → SpellCheckerProvider
  | [] => s
  | t :: ts => run (step s t) ts

/-- The timestamps of a trace are chronological and start no earlier than
the given instant. -/
def Chrono : Nat → List (Op × Nat) → Prop
  | _, [] => True
  | t0, (_, t) :: ts => t0 ≤ t ∧ Chrono t ts

/-- The recorded selection start time, when set, does not lie in the
future of the given instant. -/
def ClockLE (s : SpellCheckerProvider) (t : Nat) : Prop :=
  ∀ st, s.currentSpellCheckerStartTime = some st → st ≤ t

/-- The key of every intermediate state along the trace keeps a table
entry for the given key. -/
def keptAlong (s : SpellCheckerProvider) (key : String) :
    List (Op × Nat) → Prop
  | [] => True
  | t :: ts =>
    (lookupEntry (step s t).spellCheckerTable key).isSome ∧
      keptAlong (step s t) key ts

/-- The accumulated uptime registered under a key, zero when absent. -/
def uptimeOf (s : SpellCheckerProvider) (k : String) : Int :=
  match lookupEntry s.spellCheckerTable k with
  | some e => e.uptime
  | none => 0

/-- A concrete engine accepting exactly the word alpha, for evaluation. -/
def engA : Hunspell :=
  { spell := fun w => w == ("alpha"), suggest := fun _ => [("alpha")] }

/-- A concrete engine accepting exactly the word beta, for evaluation. -/
def engB : Hunspell :=
  { spell := fun w => w == ("beta"), suggest := fun _ => [("beta")] }

/-- A concrete engine rejecting every word, for evaluation. -/
def engNone : Hunspell :=
  { spell := fun _ => false, suggest := fun _ => [] }

/-- A concrete provider state with two buffer dictionaries loaded and the
first selected, for evaluation. -/
def stTwo : SpellCheckerProvider :=
  { hunspellFactory := { dirMounts := [], bufMounts :=
      [("/buf/0"), ("/buf/1"), ("/buf/2"), ("/buf/3")], counter := 4 }
    spellCheckerTable :=
      [(("en-us"), { spellChecker := engA, uptime := 5
                     disposeInfo := .buffer ("/buf/0") ("/buf/1") }),
       (("en-gb"), { spellChecker := engB, uptime := 2
                     disposeInfo := .buffer ("/buf/2") ("/buf/3") })]
    currentSpellCheckerKey := some ("en-us")
    currentSpellCheckerStartTime := some 100
    fileMountRefCount := []
    isRenderer := true
    installedCallback := some (.checker ("en-us") true) }

/-- A concrete state after one file-based load of two files in one
directory, for evaluation. -/
def stFileA : SpellCheckerProvider :=
  (loadDictionary (SpellCheckerProvider.init true) ("a")
    (.filePath ⟨("/da"), ("a.dic")⟩) (.filePath ⟨("/da"), ("a.aff")⟩)
    engNone).1

/-- A concrete state after a further file-based load of two files in a
second directory, for evaluation. -/
def stFileB : SpellCheckerProvider :=
  (loadDictionary stFileA ("b")
    (.filePath ⟨("/db"), ("b.dic")⟩) (.filePath ⟨("/db"), ("b.aff")⟩)
    engNone).1

theorem lookupEntry_setEntry_self {α : Type} (l : List (String × α))
    (key : String) (v : α) : lookupEntry (setEntry l key v) key = some v := by
  induction l with
  | nil => simp [setEntry, lookupEntry]
  | cons hd tl ih =>
    by_cases h : hd.1 = key
    · simp [setEntry, lookupEntry, h]
    · simp [setEntry, lookupEntry, h, ih]

theorem lookupEntry_setEntry_ne {α : Type} (l : List (String × α))
    (key key2 : String) (v : α) (h : key2 ≠ key) :
    lookupEntry (setEntry l key v) key2 = lookupEntry l key2 := by
  induction l with
  | nil => simp [setEntry, lookupEntry, Ne.symm h]
  | cons hd tl ih =>
    by_cases hk : hd.1 = key
    · simp [setEntry, lookupEntry, hk, Ne.symm h]
    · by_cases hk2 : hd.1 = key2
      · simp [setEntry, lookupEntry, hk, hk2, h]
      · simp [setEntry, lookupEntry, hk, hk2, ih]

theorem lookupEntry_eraseEntry_self {α : Type} (l : List (String × α))
    (key : String) : lookupEntry (eraseEntry l key) key = none := by
  induction l with
  | nil => simp [eraseEntry, lookupEntry]
  | cons hd tl ih =>
    by_cases h : hd.1 = key
    · simp [eraseEntry, h, ih]
    · simp [eraseEntry, lookupEntry, h, ih]

theorem lookupEntry_eraseEntry_ne {α : Type} (l : List (String × α))
    (key key2 : String) (h : key2 ≠ key) :
    lookupEntry (eraseEntry l key) key2 = lookupEntry l key2 := by
  induction l with
  | nil => simp [eraseEntry]
  | cons hd tl ih =>
    by_cases hk : hd.1 = key
    · simp [eraseEntry, lookupEntry, hk, Ne.symm h, ih]
    · by_cases hk2 : hd.1 = key2
      · simp [eraseEntry, lookupEntry, hk, hk2, h]
      · simp [eraseEntry, lookupEntry, hk, hk2, ih]

theorem mem_of_lookupEntry {α : Type} (l : List (String × α))
    (key : String) (v : α) (h : lookupEntry l key = some v) : (key, v) ∈ l := by
  induction l with
  | nil => simp [lookupEntry] at h
  | cons hd tl ih =>
    by_cases hk : hd.1 = key
    · simp [lookupEntry, hk] at h
      have he : (key, v) = hd := by
        cases hd
        simp_all
      rw [he]
      exact List.mem_cons_self _ _
    · simp [lookupEntry, hk] at h
      exact List.mem_cons_of_mem _ (ih h)

theorem lookupEntry_of_mem_nodup {α : Type} (l : List (String × α))
    (key : String) (v : α) (hnd : (l.map Prod.fst).Nodup)
    (h : (key, v) ∈ l) : lookupEntry l key = some v := by
  induction l with
  | nil => simp at h
  | cons hd tl ih =>
    simp only [List.map_cons, List.nodup_cons] at hnd
    rcases List.mem_cons.mp h with h1 | h1
    · simp [lookupEntry, ← h1]
    · have hne : hd.1 ≠ key := by
        intro he
        exact hnd.1 (he ▸ (List.mem_map.mpr ⟨(key, v), h1, rfl⟩))
      simp [lookupEntry, hne, ih hnd.2 h1]

theorem isSome_lookupEntry_iff {α : Type} (l : List (String × α))
    (key : String) :
    (lookupEntry l key).isSome = true ↔ key ∈ l.map Prod.fst := by
  induction l with
  | nil => simp [lookupEntry]
  | cons hd tl ih =>
    by_cases hk : hd.1 = key
    · simp [lookupEntry, hk]
    · simp [lookupEntry, hk, ih, Ne.symm hk]

theorem map_fst_setEntry {α : Type} (l : List (String × α))
    (key : String) (v : α) (h : lookupEntry l key = none) :
    (setEntry l key v).map Prod.fst = l.map Prod.fst ++ [key] := by
  induction l with
  | nil => simp [setEntry]
  | cons hd tl ih =>
    by_cases hk : hd.1 = key
    · simp [lookupEntry, hk] at h
    · simp [lookupEntry, hk] at h
      simp [setEntry, hk, ih h]

theorem map_fst_setEntry_mem {α : Type} (l : List (String × α))
    (key : String) (v : α) (h : (lookupEntry l key).isSome) :
    (setEntry l key v).map Prod.fst = l.map Prod.fst := by
  induction l with
  | nil => simp [lookupEntry] at h
  | cons hd tl ih =>
    by_cases hk : hd.1 = key
    · simp [setEntry, hk]
    · simp [lookupEntry, hk] at h
      simp [setEntry, hk, ih h]

theorem mem_of_mem_eraseEntry {α : Type} (l : List (String × α))
    (key : String) (kv : String × α) (h : kv ∈ eraseEntry l key) : kv ∈ l := by
  induction l with
  | nil => simp [eraseEntry] at h
  | cons hd tl ih =>
    by_cases hk : hd.1 = key
    · simp only [eraseEntry, hk, if_pos] at h
      exact List.mem_cons_of_mem _ (ih h)
    · simp only [eraseEntry, hk, if_neg, not_false_iff] at h
      rcases List.mem_cons.mp h with h1 | h1
      · exact h1 ▸ List.mem_cons_self _ _
      · exact List.mem_cons_of_mem _ (ih h1)

theorem nodup_eraseEntry {α : Type} (l : List (String × α)) (key : String)
    (hnd : (l.map Prod.fst).Nodup) :
    ((eraseEntry l key).map Prod.fst).Nodup := by
  induction l with
  | nil => simp [eraseEntry]
  | cons hd tl ih =>
    simp only [List.map_cons, List.nodup_cons] at hnd
    by_cases hk : hd.1 = key
    · simpa [eraseEntry, hk] using ih hnd.2
    · simp only [eraseEntry, hk, if_neg, not_false_iff, List.map_cons,
        List.nodup_cons]
      constructor
      · intro hmem
        rcases List.mem_map.mp hmem with ⟨kv, hkv, hfst⟩
        exact hnd.1
          (List.mem_map.mpr ⟨kv, mem_of_mem_eraseEntry tl key kv hkv, hfst⟩)
      · exact ih hnd.2

/-- C3: loadDictionary fails with the duplicate-or-empty-key error when
the key is empty or already registered, and returns the input state
unchanged, so the dictionary table and the mount ref-count table are
untouched by the failure. -/
theorem loadDictionary_duplicate_or_empty_key (s : SpellCheckerProvider)
    (key : String) (dic aff : DictSource) (engine : Hunspell)
    (h : key = "" ∨ (lookupEntry s.spellCheckerTable key).isSome) :
    loadDictionary s key dic aff engine =
      (s, .error (("Invalid key: ") ++
        if key ≠ "" then ("already registered key") else ("key is empty"))) := by
  rw [loadDictionary.eq_def, if_pos h]

/-- C3 witness: loading the already registered key en-us of a concrete
two-dictionary state fails with the duplicate-key error and leaves the
state unchanged. -/
theorem loadDictionary_duplicate_or_empty_key_witness :
    loadDictionary stTwo ("en-us") .buffer .buffer engNone =
      (stTwo, .error (("Invalid key: already registered key"))) :=
  loadDictionary_duplicate_or_empty_key stTwo ("en-us") .buffer .buffer engNone
    (Or.inr (by decide))

/-- C4: switchDictionary on a key with no table entry (which covers every
unregistered key, the empty key included, since the empty key is never
registered) fails with the not-found error and returns the input state
unchanged, so selectedDictionary, every uptime and the selection start
timestamp are untouched. -/
theorem switchDictionary_not_found (s : SpellCheckerProvider) (key : String)
    (checkAll : Bool) (now : Nat)
    (h : (lookupEntry s.spellCheckerTable key).isNone) :
    switchDictionary s key checkAll now =
      (s, .error (("Spellchecker dictionary for ") ++ key ++
        (" is not available, ensure dictionary loaded"))) := by
  rw [switchDictionary, if_pos (Or.inr h)]

/-- C4 witness: switching a concrete two-dictionary state to the missing
key misses fails with the not-found error and leaves the state unchanged,
in particular selectedDictionary still reads en-us. -/
theorem switchDictionary_not_found_witness :
    switchDictionary stTwo ("misses") false 200 =
      (stTwo, .error (("Spellchecker dictionary for misses") ++
        (" is not available, ensure dictionary loaded"))) ∧
    (switchDictionary stTwo ("misses") false 200).1.currentSpellCheckerKey =
      some ("en-us") := by
  refine ⟨?_, ?_⟩
  · exact switchDictionary_not_found stTwo ("misses") false 200 (by decide)
  · rw [switchDictionary_not_found stTwo ("misses") false 200 (by decide)]
    rfl

/-- C6: getSuggestion returns the empty list when no dictionary is
selected or the selected key has no table entry, and otherwise returns the
selected engine suggestion list verbatim; it is a total function, so it
never throws. -/
theorem getSuggestion_spec :
    (∀ (s : SpellCheckerProvider) (text : String),
      s.currentSpellCheckerKey = none → getSuggestion s text = []) ∧
    (∀ (s : SpellCheckerProvider) (text : String) (ck : String),
      s.currentSpellCheckerKey = some ck →
      lookupEntry s.spellCheckerTable ck = none → getSuggestion s text = []) ∧
    (∀ (s : SpellCheckerProvider) (text : String) (ck : String)
      (c : SpellChecker),
      s.currentSpellCheckerKey = some ck → ck ≠ "" →
      lookupEntry s.spellCheckerTable ck = some c →
      getSuggestion s text = c.spellChecker.suggest text) := by
  refine ⟨?_, ?_, ?_⟩
  · intro s text h
    simp [getSuggestion, h]
  · intro s text ck h hl
    by_cases he : ck = ""
    · simp [getSuggestion, h, he]
    · simp [getSuggestion, h, he, hl]
  · intro s text ck c h he hl
    simp [getSuggestion, h, he, hl]

/-- C6 witness: on a fresh provider with no dictionary ever loaded,
getSuggestion returns the empty list; on a concrete state with en-us
selected it returns the engine list verbatim. -/
theorem getSuggestion_spec_witness :
    getSuggestion (SpellCheckerProvider.init true) ("alpha") = [] ∧
    getSuggestion stTwo ("alpha") = [("alpha")] := by
  refine ⟨?_, ?_⟩
  · exact getSuggestion_spec.1 (SpellCheckerProvider.init true) ("alpha") rfl
  · exact getSuggestion_spec.2.2 stTwo ("alpha") ("en-us")
      { spellChecker := engA, uptime := 5
        disposeInfo := .buffer ("/buf/0") ("/buf/1") }
      rfl (by decide) rfl

theorem checkOthers_eq_any (table : List (String × SpellChecker))
    (text : String) (ks : List String)
    (h : ∀ k ∈ ks, (lookupEntry table k).isSome) :
    checkOthers table text ks = ks.any (spellOf table text) := by
  induction ks with
  | nil => simp [checkOthers]
  | cons k rest ih =>
    have hk := h k (List.mem_cons_self _ _)
    rcases ho : lookupEntry table k with _ | sc
    · rw [ho] at hk
      simp at hk
    · simp only [checkOthers, ho, List.any_cons]
      by_cases hs : sc.spellChecker.spell text = true
      · simp [hs, spellOf, ho]
      · simp [hs, spellOf, ho,
          ih (fun k2 hk2 => h k2 (List.mem_cons_of_mem _ hk2))]

/-- C1: the provider closure policy.  With a registered primary, when
checkAllDictionaries is false, or no other dictionary is registered, or
the primary accepts the word, the callback returns the primary verdict;
otherwise, with checkAllDictionaries set, it returns true exactly when
some other registered dictionary accepts the word, and whenever it
returns false every loaded dictionary misspells the word. -/
theorem providerSpell_policy :
    (∀ (table : List (String × SpellChecker)) (key : String)
      (checkAll : Bool) (text : String) (pc : SpellChecker),
      lookupEntry table key = some pc →
      (checkAll = false ∨ (tableKeys table).filter (fun x => x ≠ key) = [] ∨
        pc.spellChecker.spell text = true) →
      providerSpell table key checkAll text = some (pc.spellChecker.spell text)) ∧
    (∀ (table : List (String × SpellChecker)) (key text : String)
      (pc : SpellChecker),
      lookupEntry table key = some pc →
      (tableKeys table).Nodup →
      pc.spellChecker.spell text = false →
      (tableKeys table).filter (fun x => x ≠ key) ≠ [] →
      (providerSpell table key true text = some true ↔
        ∃ kv, kv ∈ table ∧ kv.1 ≠ key ∧ kv.2.spellChecker.spell text = true)) ∧
    (∀ (table : List (String × SpellChecker)) (key text : String),
      (tableKeys table).Nodup →
      providerSpell table key true text = some false →
      ∀ kv, kv ∈ table → kv.2.spellChecker.spell text = false) := by
  have hany : ∀ (table : List (String × SpellChecker)) (key text : String),
      checkOthers table text ((tableKeys table).filter (fun x => x ≠ key)) =
        ((tableKeys table).filter (fun x => x ≠ key)).any (spellOf table text) := by
    intro table key text
    refine checkOthers_eq_any table text _ (fun k hk => ?_)
    exact (isSome_lookupEntry_iff table k).mpr (List.mem_of_mem_filter hk)
  refine ⟨?_, ?_, ?_⟩
  · intro table key checkAll text pc hl hcond
    simp only [providerSpell, hl]
    split
    · rfl
    · rename_i hcond2
      exfalso
      apply hcond2
      rcases hcond with h | h | h
      · left
        simp [h]
      · right
        left
        rw [h]
        rfl
      · right
        right
        exact h
  · intro table key text pc hl hnd hpf hne
    simp only [providerSpell, hl]
    split
    · rename_i hcond
      exfalso
      rcases hcond with h | h | h
      · simp at h
      · exact hne (List.length_eq_zero.mp h)
      · rw [hpf] at h
        exact Bool.false_ne_true h
    · rw [hany]
      constructor
      · intro hres
        have hall : ((tableKeys table).filter (fun x => x ≠ key)).any
            (spellOf table text) = true := by
          simpa using hres
        rcases List.any_eq_true.mp hall with ⟨k, hkmem, hsp⟩
        have hkne : k ≠ key := by
          have := List.of_mem_filter hkmem
          simpa using this
        rcases ho : lookupEntry table k with _ | sc
        · rw [spellOf, ho] at hsp
          simp at hsp
        · rw [spellOf, ho] at hsp
          exact ⟨(k, sc), mem_of_lookupEntry table k sc ho, hkne, hsp⟩
      · rintro ⟨kv, hmem, hkne, hsp⟩
        have hl2 : lookupEntry table kv.1 = some kv.2 :=
          lookupEntry_of_mem_nodup table kv.1 kv.2 hnd
            (by simpa using hmem)
        have hkeys : kv.1 ∈ (tableKeys table).filter (fun x => x ≠ key) := by
          refine List.mem_filter.mpr ⟨List.mem_map.mpr ⟨kv, hmem, rfl⟩, ?_⟩
          simpa using hkne
        have hall : ((tableKeys table).filter (fun x => x ≠ key)).any
            (spellOf table text) = true :=
          List.any_eq_true.mpr ⟨kv.1, hkeys, by rw [spellOf, hl2]; exact hsp⟩
        rw [hall]
  · intro table key text hnd hres kv hmem
    rcases ho : lookupEntry table key with _ | pc
    · simp [providerSpell, ho] at hres
    · have hlkv : lookupEntry table kv.1 = some kv.2 :=
        lookupEntry_of_mem_nodup table kv.1 kv.2 hnd (by simpa using hmem)
      simp only [providerSpell, ho] at hres
      by_cases hpf : pc.spellChecker.spell text = true
      · rw [if_pos (Or.inr (Or.inr hpf)), hpf] at hres
        simp at hres
      · by_cases hkk : kv.1 = key
        · have hkv2 : kv.2 = pc := by
            have h2 := hlkv
            rw [hkk, ho] at h2
            exact (Option.some.inj h2).symm
          rw [hkv2]
          simpa using hpf
        · have hfil : kv.1 ∈ (tableKeys table).filter (fun x => x ≠ key) :=
            List.mem_filter.mpr
              ⟨List.mem_map.mpr ⟨kv, hmem, rfl⟩, by simpa using hkk⟩
          split at hres
          · rename_i hcond
            rcases hcond with h | h | h
            · simp at h
            · exact absurd (List.length_eq_zero.mp h)
                (List.ne_nil_of_mem hfil)
            · exact absurd h hpf
          · rw [hany] at hres
            have hall : ((tableKeys table).filter (fun x => x ≠ key)).any
                (spellOf table text) = false := by
              simpa using hres
            have h3 := List.any_eq_false.mp hall kv.1 hfil
            rw [spellOf, hlkv] at h3
            simpa using h3

/-- C1 witness: on a concrete two-dictionary state with primary en-us, the
word beta is misspelled by the primary yet reported correct when
checkAllDictionaries is true because en-gb accepts it, while with
checkAllDictionaries false the primary verdict false is returned. -/
theorem providerSpell_policy_witness :
    providerSpell stTwo.spellCheckerTable ("en-us") true ("beta") = some true ∧
    providerSpell stTwo.spellCheckerTable ("en-us") false ("beta") = some false := by
  constructor
  · exact (providerSpell_policy.2.1 stTwo.spellCheckerTable ("en-us") ("beta")
      ⟨engA, 5, .buffer ("/buf/0") ("/buf/1")⟩
      rfl (by decide) (by decide) (by decide)).mpr
      ⟨(("en-gb"), ⟨engB, 2, .buffer ("/buf/2") ("/buf/3")⟩),
        by simp [stTwo], by decide, by decide⟩
  · rw [providerSpell_policy.1 stTwo.spellCheckerTable ("en-us") false ("beta")
      ⟨engA, 5, .buffer ("/buf/0") ("/buf/1")⟩ rfl (Or.inl rfl)]
    rfl

theorem insertDesc_perm (x : String × Int) (l : List (String × Int)) :
    (insertDesc x l).Perm (x :: l) := by
  induction l with
  | nil => simp [insertDesc]
  | cons y ys ih =>
    by_cases h : y.2 ≤ x.2
    · simp [insertDesc, h]
    · simp only [insertDesc, h, if_neg, not_false_iff]
      exact (List.Perm.cons y ih).trans (List.Perm.swap x y ys)

theorem orderByUptimeDesc_perm (l : List (String × Int)) :
    (orderByUptimeDesc l).Perm l := by
  induction l with
  | nil => simp [orderByUptimeDesc]
  | cons x xs ih =>
    exact (insertDesc_perm x (orderByUptimeDesc xs)).trans (List.Perm.cons x ih)

theorem insertDesc_pairwise (x : String × Int) (l : List (String × Int))
    (h : l.Pairwise (fun a b => b.2 ≤ a.2)) :
    (insertDesc x l).Pairwise (fun a b => b.2 ≤ a.2) := by
  induction l with
  | nil => simp [insertDesc]
  | cons y ys ih =>
    rcases List.pairwise_cons.mp h with ⟨hy, hys⟩
    by_cases hc : y.2 ≤ x.2
    · simp only [insertDesc, hc, if_pos]
      refine List.pairwise_cons.mpr ⟨?_, h⟩
      intro z hz
      rcases List.mem_cons.mp hz with h1 | h1
      · exact h1 ▸ hc
      · exact le_trans (hy z h1) hc
    · simp only [insertDesc, hc, if_neg, not_false_iff]
      refine List.pairwise_cons.mpr ⟨?_, ih hys⟩
      intro z hz
      have hz2 : z ∈ x :: ys := (insertDesc_perm x ys).mem_iff.mp hz
      rcases List.mem_cons.mp hz2 with h1 | h1
      · exact h1 ▸ le_of_lt (lt_of_not_le hc)
      · exact hy z h1

theorem orderByUptimeDesc_pairwise (l : List (String × Int)) :
    (orderByUptimeDesc l).Pairwise (fun a b => b.2 ≤ a.2) := by
  induction l with
  | nil => simp [orderByUptimeDesc]
  | cons x xs ih => exact insertDesc_pairwise x (orderByUptimeDesc xs) ih

theorem uptimeOf_of_mem_array (s : SpellCheckerProvider) (k : String)
    (u : Int) (hnd : (tableKeys s.spellCheckerTable).Nodup)
    (h : (k, u) ∈ s.spellCheckerTable.map (fun kv => (kv.1, kv.2.uptime))) :
    uptimeOf s k = u := by
  rcases List.mem_map.mp h with ⟨kv, hkv, he⟩
  have h1 : kv.1 = k := congrArg Prod.fst he
  have h2 : kv.2.uptime = u := congrArg Prod.snd he
  have hl : lookupEntry s.spellCheckerTable k = some kv.2 :=
    lookupEntry_of_mem_nodup s.spellCheckerTable k kv.2 hnd
      (by rw [← h1]; simpa using hkv)
  rw [uptimeOf, hl]
  exact h2

/-- C7: availableDictionaries is a permutation of the registered keys, so
with the (invariant) duplicate-free table each registered key appears
exactly once, the keys are ordered by descending accumulated uptime, and
a key just loaded successfully appears exactly once. -/
theorem availableDictionaries_spec :
    (∀ s : SpellCheckerProvider,
      (availableDictionaries s).Perm (tableKeys s.spellCheckerTable)) ∧
    (∀ s : SpellCheckerProvider,
      (tableKeys s.spellCheckerTable).Nodup →
      ∀ k, k ∈ tableKeys s.spellCheckerTable →
        (availableDictionaries s).count k = 1) ∧
    (∀ s : SpellCheckerProvider,
      (tableKeys s.spellCheckerTable).Nodup →
      (availableDictionaries s).Pairwise
        (fun k1 k2 => uptimeOf s k2 ≤ uptimeOf s k1)) ∧
    (∀ (s : SpellCheckerProvider) (key : String) (dic aff : DictSource)
      (engine : Hunspell) (s2 : SpellCheckerProvider),
      (tableKeys s.spellCheckerTable).Nodup →
      loadDictionary s key dic aff engine = (s2, .ok ()) →
      (availableDictionaries s2).count key = 1) := by
  have hperm : ∀ s : SpellCheckerProvider,
      (availableDictionaries s).Perm (tableKeys s.spellCheckerTable) := by
    intro s
    have h1 := orderByUptimeDesc_perm
      (s.spellCheckerTable.map (fun kv => (kv.1, kv.2.uptime)))
    have h2 := h1.map Prod.fst
    rw [availableDictionaries]
    refine h2.trans ?_
    rw [List.map_map, tableKeys]
    exact List.Perm.refl _
  have hcount : ∀ s : SpellCheckerProvider,
      (tableKeys s.spellCheckerTable).Nodup →
      ∀ k, k ∈ tableKeys s.spellCheckerTable →
        (availableDictionaries s).count k = 1 := by
    intro s hnd k hk
    rw [(hperm s).count_eq]
    exact List.count_eq_one_of_mem hnd hk
  refine ⟨hperm, hcount, ?_, ?_⟩
  · intro s hnd
    rw [availableDictionaries]
    rw [List.pairwise_map]
    refine List.Pairwise.imp_of_mem ?_
      (orderByUptimeDesc_pairwise
        (s.spellCheckerTable.map (fun kv => (kv.1, kv.2.uptime))))
    intro a b ha hb hab
    have ha2 : a ∈ s.spellCheckerTable.map (fun kv => (kv.1, kv.2.uptime)) :=
      (orderByUptimeDesc_perm _).subset ha
    have hb2 : b ∈ s.spellCheckerTable.map (fun kv => (kv.1, kv.2.uptime)) :=
      (orderByUptimeDesc_perm _).subset hb
    rw [uptimeOf_of_mem_array s a.1 a.2 hnd (by simpa using ha2),
      uptimeOf_of_mem_array s b.1 b.2 hnd (by simpa using hb2)]
    exact hab
  · intro s key dic aff engine s2 hnd hload
    have hkey : (lookupEntry s.spellCheckerTable key).isSome = false ∧
        key ≠ "" := by
      by_contra hcon
      push_neg at hcon
      have : key = "" ∨ (lookupEntry s.spellCheckerTable key).isSome := by
        by_cases he : key = ""
        · exact Or.inl he
        · rcases Bool.eq_false_or_eq_true
            (lookupEntry s.spellCheckerTable key).isSome with h | h
          · exact Or.inr h
          · exact absurd (hcon h) he
      rw [loadDictionary.eq_def, if_pos this] at hload
      simp at hload
    have hnone : lookupEntry s.spellCheckerTable key = none :=
      Option.not_isSome_iff_eq_none.mp (by simp [hkey.1])
    have hkeys : tableKeys s2.spellCheckerTable =
        tableKeys s.spellCheckerTable ++ [key] := by
      rw [loadDictionary.eq_def] at hload
      rw [if_neg] at hload
      · rcases dic with pd | _ <;> rcases aff with pa | _ <;>
          dsimp only at hload
        · have h1 := congrArg Prod.fst hload
          dsimp only at h1
          rw [← h1]
          exact map_fst_setEntry _ _ _ hnone
        · simp at hload
        · simp at hload
        · have h1 := congrArg Prod.fst hload
          dsimp only at h1
          rw [← h1]
          exact map_fst_setEntry _ _ _ hnone
      · rw [not_or]
        exact ⟨hkey.2, by simp [hkey.1]⟩
    have hnd2 : (tableKeys s2.spellCheckerTable).Nodup := by
      rw [hkeys]
      refine List.Nodup.append hnd (List.nodup_singleton key) ?_
      intro a ha hb
      rcases List.mem_singleton.mp hb with rfl
      have := (isSome_lookupEntry_iff s.spellCheckerTable a).mpr ha
      rw [hnone] at this
      simp at this
    exact hcount s2 hnd2 key (by rw [hkeys]; simp)

/-- C7 witness: on a concrete two-dictionary state, en-us (uptime 5)
appears exactly once and the listing is sorted by descending uptime, and
after a successful load of the fresh key de that key appears exactly
once. -/
theorem availableDictionaries_spec_witness :
    (availableDictionaries stTwo).count ("en-us") = 1 ∧
    (availableDictionaries stTwo).Pairwise
      (fun k1 k2 => uptimeOf stTwo k2 ≤ uptimeOf stTwo k1) ∧
    (availableDictionaries
      (loadDictionary stTwo ("de") .buffer .buffer engNone).1).count ("de") = 1 := by
  refine ⟨?_, ?_, ?_⟩
  · exact availableDictionaries_spec.2.1 stTwo (by decide) ("en-us") (by decide)
  · exact availableDictionaries_spec.2.2.1 stTwo (by decide)
  · exact availableDictionaries_spec.2.2.2 stTwo ("de") .buffer .buffer engNone
      (loadDictionary stTwo ("de") .buffer .buffer engNone).1 (by decide) rfl

theorem checkOthers_filter_eq_any (table : List (String × SpellChecker))
    (key text : String) :
    checkOthers table text ((tableKeys table).filter (fun x => x ≠ key)) =
      ((tableKeys table).filter (fun x => x ≠ key)).any (spellOf table text) := by
  refine checkOthers_eq_any table text _ (fun k hk => ?_)
  exact (isSome_lookupEntry_iff table k).mpr (List.mem_of_mem_filter hk)

theorem providerSpell_false_of_all_false (table : List (String × SpellChecker))
    (key w : String) (pc : SpellChecker)
    (hl : lookupEntry table key = some pc)
    (hpf : pc.spellChecker.spell w = false)
    (hall : ∀ kv ∈ table, kv.1 ≠ key → kv.2.spellChecker.spell w = false) :
    providerSpell table key true w = some false := by
  have hany2 : ((tableKeys table).filter (fun x => x ≠ key)).any
      (spellOf table w) = false := by
    refine List.any_eq_false.mpr ?_
    intro k hk
    have hkne : k ≠ key := by simpa using List.of_mem_filter hk
    rcases ho : lookupEntry table k with _ | sc
    · simp [spellOf, ho]
    · have h2 : sc.spellChecker.spell w = false :=
        hall (k, sc) (mem_of_lookupEntry table k sc ho) hkne
      simp only [spellOf, ho]
      simp [h2]
  simp only [providerSpell, hl]
  split
  · rw [hpf]
  · rw [checkOthers_filter_eq_any, hany2]

theorem providerSpell_true_of_other (table : List (String × SpellChecker))
    (key w k2 : String) (pc sc : SpellChecker)
    (hl : lookupEntry table key = some pc)
    (hpf : pc.spellChecker.spell w = false)
    (hk2 : k2 ≠ key)
    (hl2 : lookupEntry table k2 = some sc)
    (hsp : sc.spellChecker.spell w = true) :
    providerSpell table key true w = some true := by
  have hmem : k2 ∈ (tableKeys table).filter (fun x => x ≠ key) :=
    List.mem_filter.mpr
      ⟨(isSome_lookupEntry_iff table k2).mp (by simp [hl2]), by simpa using hk2⟩
  have hany2 : ((tableKeys table).filter (fun x => x ≠ key)).any
      (spellOf table w) = true :=
    List.any_eq_true.mpr ⟨k2, hmem, by simp [spellOf, hl2, hsp]⟩
  simp only [providerSpell, hl]
  split
  · rename_i hcond
    rcases hcond with h | h | h
    · simp at h
    · exact absurd (List.length_eq_zero.mp h) (List.ne_nil_of_mem hmem)
    · rw [h] at hpf
      exact absurd hpf (by simp)
  · rw [checkOthers_filter_eq_any, hany2]

theorem loadDictionary_ok_effects (s : SpellCheckerProvider) (key : String)
    (dic aff : DictSource) (engine : Hunspell) (s2 : SpellCheckerProvider)
    (h : loadDictionary s key dic aff engine = (s2, .ok ())) :
    lookupEntry s.spellCheckerTable key = none ∧ key ≠ "" ∧
    s2.currentSpellCheckerKey = s.currentSpellCheckerKey ∧
    s2.currentSpellCheckerStartTime = s.currentSpellCheckerStartTime ∧
    s2.installedCallback = s.installedCallback ∧
    tableKeys s2.spellCheckerTable = tableKeys s.spellCheckerTable ++ [key] ∧
    (∃ e2, lookupEntry s2.spellCheckerTable key = some e2 ∧
      e2.spellChecker = engine ∧ e2.uptime = 0) ∧
    (∀ k, k ≠ key →
      lookupEntry s2.spellCheckerTable k = lookupEntry s.spellCheckerTable k) := by
  by_cases hg : key = "" ∨ (lookupEntry s.spellCheckerTable key).isSome
  · rw [loadDictionary.eq_def, if_pos hg] at h
    exact absurd (congrArg Prod.snd h) (by simp)
  · push_neg at hg
    have hnone : lookupEntry s.spellCheckerTable key = none :=
      Option.not_isSome_iff_eq_none.mp (by simpa using hg.2)
    rw [loadDictionary.eq_def] at h
    rw [if_neg (by rw [not_or]; exact ⟨hg.1, by simpa using hg.2⟩)] at h
    rcases dic with pd | _ <;> rcases aff with pa | _ <;> dsimp only at h
    · have h1 := congrArg Prod.fst h
      dsimp only at h1
      subst h1
      refine ⟨hnone, hg.1, rfl, rfl, rfl, ?_, ?_, ?_⟩
      · exact map_fst_setEntry _ _ _ hnone
      · exact ⟨_, lookupEntry_setEntry_self _ _ _, rfl, rfl⟩
      · intro k hk
        exact lookupEntry_setEntry_ne _ _ _ _ hk
    · exact absurd (congrArg Prod.snd h) (by simp)
    · exact absurd (congrArg Prod.snd h) (by simp)
    · have h1 := congrArg Prod.fst h
      dsimp only at h1
      subst h1
      refine ⟨hnone, hg.1, rfl, rfl, rfl, ?_, ?_, ?_⟩
      · exact map_fst_setEntry _ _ _ hnone
      · exact ⟨_, lookupEntry_setEntry_self _ _ _, rfl, rfl⟩
      · intro k hk
        exact lookupEntry_setEntry_ne _ _ _ _ hk

theorem unloadDictionary_not_current (s : SpellCheckerProvider) (key : String)
    (entry : SpellChecker)
    (hl : lookupEntry s.spellCheckerTable key = some entry)
    (hke : key ≠ "") (hck : s.currentSpellCheckerKey ≠ some key) :
    unloadDictionary s key = { s with
      hunspellFactory :=
        (applyDispose (s.hunspellFactory, s.fileMountRefCount)
          entry.disposeInfo).1
      fileMountRefCount :=
        (applyDispose (s.hunspellFactory, s.fileMountRefCount)
          entry.disposeInfo).2
      spellCheckerTable := eraseEntry s.spellCheckerTable key } := by
  have hguard : ¬(key = "" ∨ (lookupEntry s.spellCheckerTable key).isNone) := by
    rw [not_or]
    exact ⟨hke, by simp [hl]⟩
  have hcur : (match s.currentSpellCheckerKey with
      | some currentKey => currentKey ≠ "" && currentKey == key
      | none => false) = false := by
    rcases hc : s.currentSpellCheckerKey with _ | ck
    · rfl
    · have : ck ≠ key := by
        intro he
        exact hck (by rw [hc, he])
      simp [this]
  rw [unloadDictionary.eq_def, if_neg hguard]
  simp only [hcur, Bool.false_eq_true, if_neg, not_false_iff, hl]

/-- C8: unloadDictionary is a state-preserving no-op on an empty or
unregistered key; on the currently selected key it clears the selection,
resets the start time, substitutes the always-correct callback (in a
renderer process, where a callback can be installed at all), disposes the
entry and removes it, leaving every other entry in place; on a registered
but unselected key it leaves the whole selection state and the installed
callback untouched and only disposes and removes that entry. -/
theorem unloadDictionary_spec :
    (∀ (s : SpellCheckerProvider) (key : String),
      (key = "" ∨ (lookupEntry s.spellCheckerTable key).isNone) →
      unloadDictionary s key = s) ∧
    (∀ (s : SpellCheckerProvider) (key : String) (entry : SpellChecker)
      (s2 : SpellCheckerProvider),
      lookupEntry s.spellCheckerTable key = some entry →
      s.currentSpellCheckerKey = some key → key ≠ "" →
      s2 = unloadDictionary s key →
      s2.currentSpellCheckerKey = none ∧
      s2.currentSpellCheckerStartTime = none ∧
      (s.isRenderer = true →
        s2.installedCallback = some (.alwaysCorrect key) ∧
        ∀ w, invokeInstalled s2 w = some true) ∧
      lookupEntry s2.spellCheckerTable key = none ∧
      (∀ k, k ≠ key →
        lookupEntry s2.spellCheckerTable k = lookupEntry s.spellCheckerTable k) ∧
      (s2.hunspellFactory, s2.fileMountRefCount) =
        applyDispose (s.hunspellFactory, s.fileMountRefCount) entry.disposeInfo) ∧
    (∀ (s : SpellCheckerProvider) (key : String) (entry : SpellChecker)
      (s2 : SpellCheckerProvider),
      lookupEntry s.spellCheckerTable key = some entry →
      key ≠ "" → s.currentSpellCheckerKey ≠ some key →
      s2 = unloadDictionary s key →
      s2.currentSpellCheckerKey = s.currentSpellCheckerKey ∧
      s2.currentSpellCheckerStartTime = s.currentSpellCheckerStartTime ∧
      s2.installedCallback = s.installedCallback ∧
      lookupEntry s2.spellCheckerTable key = none ∧
      (∀ k, k ≠ key →
        lookupEntry s2.spellCheckerTable k = lookupEntry s.spellCheckerTable k) ∧
      (s2.hunspellFactory, s2.fileMountRefCount) =
        applyDispose (s.hunspellFactory, s.fileMountRefCount) entry.disposeInfo) := by
  refine ⟨?_, ?_, ?_⟩
  · intro s key h
    rw [unloadDictionary.eq_def, if_pos h]
  · intro s key entry s2 hl hck hke hs2
    have hguard : ¬(key = "" ∨ (lookupEntry s.spellCheckerTable key).isNone) := by
      rw [not_or]
      exact ⟨hke, by simp [hl]⟩
    have hcur : (match s.currentSpellCheckerKey with
        | some currentKey => currentKey ≠ "" && currentKey == key
        | none => false) = true := by
      rw [hck]
      simp [hke]
    rw [unloadDictionary.eq_def, if_neg hguard] at hs2
    simp only [hcur, if_pos, setProvider] at hs2
    by_cases hr : s.isRenderer
    · simp only [hr, if_pos, hl] at hs2
      subst hs2
      refine ⟨rfl, rfl, fun _ => ⟨rfl, fun w => rfl⟩, ?_, ?_, ?_⟩
      · exact lookupEntry_eraseEntry_self _ key
      · intro k hk
        exact lookupEntry_eraseEntry_ne _ key k hk
      · rfl
    · simp only [hr, if_neg, Bool.false_eq_true, not_false_iff, hl] at hs2
      subst hs2
      refine ⟨rfl, rfl, fun hcontra => absurd hcontra hr, ?_, ?_, ?_⟩
      · exact lookupEntry_eraseEntry_self _ key
      · intro k hk
        exact lookupEntry_eraseEntry_ne _ key k hk
      · rfl
  · intro s key entry s2 hl hke hck hs2
    have hguard : ¬(key = "" ∨ (lookupEntry s.spellCheckerTable key).isNone) := by
      rw [not_or]
      exact ⟨hke, by simp [hl]⟩
    have hcur : (match s.currentSpellCheckerKey with
        | some currentKey => currentKey ≠ "" && currentKey == key
        | none => false) = false := by
      rcases hc : s.currentSpellCheckerKey with _ | ck
      · rfl
      · have : ck ≠ key := by
          intro he
          exact hck (by rw [hc, he])
        simp [this]
    rw [unloadDictionary.eq_def, if_neg hguard] at hs2
    simp only [hcur, Bool.false_eq_true, if_neg, not_false_iff, hl] at hs2
    subst hs2
    refine ⟨rfl, rfl, rfl, ?_, ?_, ?_⟩
    · exact lookupEntry_eraseEntry_self _ key
    · intro k hk
      exact lookupEntry_eraseEntry_ne _ key k hk
    · rfl

/-- C8 witness: on a concrete two-dictionary state, unloading a missing
key changes nothing; unloading the selected en-us clears the selection and
installs the always-correct callback; unloading the unselected en-gb
leaves the installed callback alone and removes only that entry. -/
theorem unloadDictionary_spec_witness :
    unloadDictionary stTwo ("nope") = stTwo ∧
    (unloadDictionary stTwo ("en-us")).currentSpellCheckerKey = none ∧
    (∀ w, invokeInstalled (unloadDictionary stTwo ("en-us")) w = some true) ∧
    (unloadDictionary stTwo ("en-gb")).installedCallback =
      some (.checker ("en-us") true) ∧
    lookupEntry (unloadDictionary stTwo ("en-gb")).spellCheckerTable
      ("en-gb") = none := by
  refine ⟨?_, ?_, ?_, ?_, ?_⟩
  · exact unloadDictionary_spec.1 stTwo ("nope") (Or.inr (by decide))
  · exact (unloadDictionary_spec.2.1 stTwo ("en-us")
      ⟨engA, 5, .buffer ("/buf/0") ("/buf/1")⟩ _ rfl rfl (by decide) rfl).1
  · exact ((unloadDictionary_spec.2.1 stTwo ("en-us")
      ⟨engA, 5, .buffer ("/buf/0") ("/buf/1")⟩ _ rfl rfl (by decide)
      rfl).2.2.1 rfl).2
  · exact ((unloadDictionary_spec.2.2 stTwo ("en-gb")
      ⟨engB, 2, .buffer ("/buf/2") ("/buf/3")⟩ _ rfl (by decide) (by decide)
      rfl).2.2.1).trans rfl
  · exact (unloadDictionary_spec.2.2 stTwo ("en-gb")
      ⟨engB, 2, .buffer ("/buf/2") ("/buf/3")⟩ _ rfl (by decide) (by decide)
      rfl).2.2.2.1

theorem fst_ne_of_mem_eraseEntry {α : Type} (l : List (String × α))
    (key : String) (kv : String × α) (h : kv ∈ eraseEntry l key) :
    kv.1 ≠ key := by
  induction l with
  | nil => simp [eraseEntry] at h
  | cons hd tl ih =>
    by_cases hk : hd.1 = key
    · simp only [eraseEntry, hk, if_pos] at h
      exact ih h
    · simp only [eraseEntry, hk, if_neg, not_false_iff] at h
      rcases List.mem_cons.mp h with h1 | h1
      · rw [h1]
        exact hk
      · exact ih h1

/-- C10: the installed provider closure captures only the primary key and
the flag and reads the dictionary table afresh on every invocation (the
embedding evaluates it against the table of the invocation-time state):
loading a new dictionary after the switch makes later invocations consult
it without re-attaching, and unloading a non-current dictionary removes it
from the fallback set consulted afterwards. -/
theorem provider_reads_table_afresh :
    (∀ (s : SpellCheckerProvider) (key w k2 : String) (pc : SpellChecker)
      (dic aff : DictSource) (e : Hunspell) (s2 : SpellCheckerProvider),
      s.installedCallback = some (.checker key true) →
      lookupEntry s.spellCheckerTable key = some pc →
      pc.spellChecker.spell w = false →
      (∀ kv ∈ s.spellCheckerTable, kv.1 ≠ key →
        kv.2.spellChecker.spell w = false) →
      e.spell w = true →
      loadDictionary s k2 dic aff e = (s2, .ok ()) →
      invokeInstalled s w = some false ∧
      invokeInstalled s2 w = some true ∧
      s2.installedCallback = s.installedCallback) ∧
    (∀ (s : SpellCheckerProvider) (key w k2 : String) (pc sc : SpellChecker),
      s.installedCallback = some (.checker key true) →
      s.currentSpellCheckerKey = some key →
      lookupEntry s.spellCheckerTable key = some pc →
      pc.spellChecker.spell w = false →
      k2 ≠ key → k2 ≠ "" →
      lookupEntry s.spellCheckerTable k2 = some sc →
      sc.spellChecker.spell w = true →
      (∀ kv ∈ s.spellCheckerTable, kv.1 ≠ key → kv.1 ≠ k2 →
        kv.2.spellChecker.spell w = false) →
      invokeInstalled s w = some true ∧
      invokeInstalled (unloadDictionary s k2) w = some false ∧
      (unloadDictionary s k2).installedCallback = s.installedCallback) := by
  constructor
  · intro s key w k2 pc dic aff e s2 hcb hl hpf hall he hload
    rcases loadDictionary_ok_effects s k2 dic aff e s2 hload with
      ⟨hnone, _, _, _, hcb2, _, ⟨e2, hle2, hee, _⟩, hrest⟩
    have hk2key : k2 ≠ key := by
      intro hcontra
      rw [hcontra, hl] at hnone
      simp at hnone
    refine ⟨?_, ?_, hcb2⟩
    · rw [invokeInstalled, hcb]
      exact providerSpell_false_of_all_false s.spellCheckerTable key w pc
        hl hpf hall
    · rw [invokeInstalled, hcb2, hcb]
      refine providerSpell_true_of_other s2.spellCheckerTable key w k2 pc e2
        ?_ hpf hk2key hle2 ?_
      · rw [hrest key (fun hcontra => hk2key hcontra.symm)]
        exact hl
      · rw [hee]
        exact he
  · intro s key w k2 pc sc hcb hck hl hpf hk2 hk2e hl2 hsp hall
    have hun := unloadDictionary_not_current s k2 sc hl2 hk2e
      (by rw [hck]; intro hcontra; exact hk2 (Option.some.inj hcontra).symm)
    refine ⟨?_, ?_, ?_⟩
    · rw [invokeInstalled, hcb]
      exact providerSpell_true_of_other s.spellCheckerTable key w k2 pc sc
        hl hpf hk2 hl2 hsp
    · rw [invokeInstalled, hun]
      have hcb3 : ({ s with
          hunspellFactory :=
            (applyDispose (s.hunspellFactory, s.fileMountRefCount)
              sc.disposeInfo).1
          fileMountRefCount :=
            (applyDispose (s.hunspellFactory, s.fileMountRefCount)
              sc.disposeInfo).2
          spellCheckerTable :=
            eraseEntry s.spellCheckerTable k2 } : SpellCheckerProvider).installedCallback =
          some (.checker key true) := hcb
      rw [hcb3]
      refine providerSpell_false_of_all_false _ key w pc ?_ hpf ?_
      · exact (lookupEntry_eraseEntry_ne _ k2 key
          (fun hcontra => hk2 hcontra.symm)).trans hl
      · intro kv hkv hkne
        have hmem := mem_of_mem_eraseEntry s.spellCheckerTable k2 kv hkv
        have hkvk2 : kv.1 ≠ k2 :=
          fst_ne_of_mem_eraseEntry s.spellCheckerTable k2 kv hkv
        exact hall kv hmem hkne hkvk2
    · rw [hun]

/-- C10 witness: on the concrete state with the en-us provider attached
with checkAllDictionaries, the word gamma is misspelled everywhere until a
dictionary accepting it is loaded under the fresh key de, after which the
same installed callback reports it correct; the word beta is accepted only
by en-gb, and after unloading en-gb the same installed callback reports it
incorrect. -/
theorem provider_reads_table_afresh_witness :
    invokeInstalled stTwo ("gamma") = some false ∧
    invokeInstalled (loadDictionary stTwo ("de") .buffer .buffer
      ⟨fun x => x == ("gamma"), fun _ => []⟩).1 ("gamma") = some true ∧
    invokeInstalled stTwo ("beta") = some true ∧
    invokeInstalled (unloadDictionary stTwo ("en-gb")) ("beta") = some false := by
  have hall1 : ∀ kv ∈ stTwo.spellCheckerTable, kv.1 ≠ ("en-us") →
      kv.2.spellChecker.spell ("gamma") = false := by
    intro kv hkv hne
    rcases List.mem_cons.mp hkv with h | h
    · rw [h] at hne
      exact absurd rfl hne
    · rcases List.mem_cons.mp h with h2 | h2
      · rw [h2]
        rfl
      · simp at h2
  have hall2 : ∀ kv ∈ stTwo.spellCheckerTable, kv.1 ≠ ("en-us") →
      kv.1 ≠ ("en-gb") → kv.2.spellChecker.spell ("beta") = false := by
    intro kv hkv hne1 hne2
    rcases List.mem_cons.mp hkv with h | h
    · rw [h] at hne1
      exact absurd rfl hne1
    · rcases List.mem_cons.mp h with h2 | h2
      · rw [h2] at hne2
        exact absurd rfl hne2
      · simp at h2
  have h1 := provider_reads_table_afresh.1 stTwo ("en-us") ("gamma") ("de")
    ⟨engA, 5, .buffer ("/buf/0") ("/buf/1")⟩ .buffer .buffer
    ⟨fun x => x == ("gamma"), fun _ => []⟩
    (loadDictionary stTwo ("de") .buffer .buffer
      ⟨fun x => x == ("gamma"), fun _ => []⟩).1
    rfl rfl rfl hall1 rfl rfl
  have h2 := provider_reads_table_afresh.2 stTwo ("en-us") ("beta") ("en-gb")
    ⟨engA, 5, .buffer ("/buf/0") ("/buf/1")⟩
    ⟨engB, 2, .buffer ("/buf/2") ("/buf/3")⟩
    rfl rfl rfl rfl (by decide) (by decide) rfl rfl hall2
  exact ⟨h1.1, h1.2.1, h2.1, h2.2.1⟩

theorem lookupEntry_append_of_none {α : Type} (l1 l2 : List (String × α))
    (key : String) (h : lookupEntry l1 key = none) :
    lookupEntry (l1 ++ l2) key = lookupEntry l2 key := by
  induction l1 with
  | nil => simp
  | cons hd tl ih =>
    by_cases hk : hd.1 = key
    · simp [lookupEntry, hk] at h
    · simp only [lookupEntry, hk, if_neg, not_false_iff] at h
      simp only [List.cons_append, lookupEntry, hk, if_neg, not_false_iff]
      exact ih h

theorem loadDictionary_file_eq (s : SpellCheckerProvider) (key : String)
    (pd pa : FsPath) (engine : Hunspell)
    (hguard : ¬(key = "" ∨ (lookupEntry s.spellCheckerTable key).isSome)) :
    loadDictionary s key (.filePath pd) (.filePath pa) engine =
      ({ s with
          hunspellFactory :=
            ((s.hunspellFactory.mountDirectory pa.dir).2.mountDirectory pd.dir).2
          fileMountRefCount :=
            increaseRefCount
              (increaseRefCount s.fileMountRefCount
                ⟨(s.hunspellFactory.mountDirectory pa.dir).1, pa.base⟩)
              ⟨((s.hunspellFactory.mountDirectory pa.dir).2.mountDirectory
                  pd.dir).1, pd.base⟩
          spellCheckerTable := setEntry s.spellCheckerTable key
            ⟨engine, 0, .file
              ⟨(s.hunspellFactory.mountDirectory pa.dir).1, pa.base⟩
              ⟨((s.hunspellFactory.mountDirectory pa.dir).2.mountDirectory
                  pd.dir).1, pd.base⟩⟩ }, .ok ()) := by
  rw [loadDictionary.eq_def, if_neg hguard]

/-- C9: on a file-based load, the physical directory is mounted once per
unique directory and the ref count of its virtual mount point is
incremented once per mounted file.  With both files in one directory that
is already mounted there is no new mount and the count rises by exactly
two; with both files in one fresh directory exactly one mount is created
and its count becomes two; with the two files in two distinct mounted
directories each count rises by exactly one. -/
theorem mountFileDictionary_refcount :
    (∀ (s : SpellCheckerProvider) (key dirP ba bd v : String) (n : Int)
      (engine : Hunspell) (s2 : SpellCheckerProvider),
      lookupEntry s.hunspellFactory.dirMounts dirP = some v →
      lookupEntry s.fileMountRefCount v = some n → 0 < n →
      loadDictionary s key (.filePath ⟨dirP, bd⟩) (.filePath ⟨dirP, ba⟩)
        engine = (s2, .ok ()) →
      s2.hunspellFactory.dirMounts = s.hunspellFactory.dirMounts ∧
      lookupEntry s2.fileMountRefCount v = some (n + 2)) ∧
    (∀ (s : SpellCheckerProvider) (key dirP ba bd : String)
      (engine : Hunspell) (s2 : SpellCheckerProvider),
      lookupEntry s.hunspellFactory.dirMounts dirP = none →
      lookupEntry s.fileMountRefCount
        (("/mnt/") ++ toString s.hunspellFactory.counter) = none →
      loadDictionary s key (.filePath ⟨dirP, bd⟩) (.filePath ⟨dirP, ba⟩)
        engine = (s2, .ok ()) →
      s2.hunspellFactory.dirMounts = s.hunspellFactory.dirMounts ++
        [(dirP, ("/mnt/") ++ toString s.hunspellFactory.counter)] ∧
      lookupEntry s2.fileMountRefCount
        (("/mnt/") ++ toString s.hunspellFactory.counter) = some 2) ∧
    (∀ (s : SpellCheckerProvider) (key da ba dd bd va vd : String)
      (na nd : Int) (engine : Hunspell) (s2 : SpellCheckerProvider),
      lookupEntry s.hunspellFactory.dirMounts da = some va →
      lookupEntry s.hunspellFactory.dirMounts dd = some vd →
      va ≠ vd →
      lookupEntry s.fileMountRefCount va = some na → 0 < na →
      lookupEntry s.fileMountRefCount vd = some nd → 0 < nd →
      loadDictionary s key (.filePath ⟨dd, bd⟩) (.filePath ⟨da, ba⟩)
        engine = (s2, .ok ()) →
      s2.hunspellFactory.dirMounts = s.hunspellFactory.dirMounts ∧
      lookupEntry s2.fileMountRefCount va = some (na + 1) ∧
      lookupEntry s2.fileMountRefCount vd = some (nd + 1)) := by
  refine ⟨?_, ?_, ?_⟩
  · intro s key dirP ba bd v n engine s2 hmv hrc hn hload
    rcases loadDictionary_ok_effects s key _ _ engine s2 hload with
      ⟨hnone, hne, _⟩
    have hguard : ¬(key = "" ∨ (lookupEntry s.spellCheckerTable key).isSome) := by
      rw [not_or]
      exact ⟨hne, by simp [hnone]⟩
    rw [loadDictionary_file_eq s key _ _ engine hguard] at hload
    have h1 := (congrArg Prod.fst hload).symm
    dsimp only at h1
    have hm : s.hunspellFactory.mountDirectory dirP = (v, s.hunspellFactory) := by
      rw [HunspellFactory.mountDirectory, hmv]
    have hr1 : increaseRefCount s.fileMountRefCount ⟨v, ba⟩ =
        setEntry s.fileMountRefCount v (n + 1) := by
      rw [increaseRefCount]
      dsimp only
      rw [hrc]
      simp [hn.ne']
    have hr2 : increaseRefCount (setEntry s.fileMountRefCount v (n + 1))
        ⟨v, bd⟩ =
        setEntry (setEntry s.fileMountRefCount v (n + 1)) v (n + 2) := by
      rw [increaseRefCount]
      dsimp only
      rw [lookupEntry_setEntry_self]
      have h21 : n + 1 ≠ 0 := by omega
      have h22 : n + 1 + 1 = n + 2 := by ring
      simp [h21, h22]
    subst h1
    constructor
    · simp only [hm]
    · simp only [hm]
      rw [hr1, hr2, lookupEntry_setEntry_self]
  · intro s key dirP ba bd engine s2 hmv hrc hload
    rcases loadDictionary_ok_effects s key _ _ engine s2 hload with
      ⟨hnone, hne, _⟩
    have hguard : ¬(key = "" ∨ (lookupEntry s.spellCheckerTable key).isSome) := by
      rw [not_or]
      exact ⟨hne, by simp [hnone]⟩
    rw [loadDictionary_file_eq s key _ _ engine hguard] at hload
    have h1 := (congrArg Prod.fst hload).symm
    dsimp only at h1
    have hm : s.hunspellFactory.mountDirectory dirP =
        ((("/mnt/") ++ toString s.hunspellFactory.counter),
          { s.hunspellFactory with
            dirMounts := s.hunspellFactory.dirMounts ++
              [(dirP, ("/mnt/") ++ toString s.hunspellFactory.counter)]
            counter := s.hunspellFactory.counter + 1 }) := by
      rw [HunspellFactory.mountDirectory, hmv]
    have hl2 : lookupEntry (s.hunspellFactory.dirMounts ++
        [(dirP, ("/mnt/") ++ toString s.hunspellFactory.counter)]) dirP =
        some (("/mnt/") ++ toString s.hunspellFactory.counter) := by
      rw [lookupEntry_append_of_none _ _ _ hmv]
      simp [lookupEntry]
    have hm2 : ({ s.hunspellFactory with
        dirMounts := s.hunspellFactory.dirMounts ++
          [(dirP, ("/mnt/") ++ toString s.hunspellFactory.counter)]
        counter := s.hunspellFactory.counter + 1 } :
          HunspellFactory).mountDirectory dirP =
        ((("/mnt/") ++ toString s.hunspellFactory.counter),
          { s.hunspellFactory with
            dirMounts := s.hunspellFactory.dirMounts ++
              [(dirP, ("/mnt/") ++ toString s.hunspellFactory.counter)]
            counter := s.hunspellFactory.counter + 1 }) := by
      rw [HunspellFactory.mountDirectory]
      dsimp only
      rw [hl2]
    have hr1 : increaseRefCount s.fileMountRefCount
        ⟨("/mnt/") ++ toString s.hunspellFactory.counter, ba⟩ =
        setEntry s.fileMountRefCount
          (("/mnt/") ++ toString s.hunspellFactory.counter) 1 := by
      rw [increaseRefCount]
      dsimp only
      rw [hrc]
    have hr2 : increaseRefCount (setEntry s.fileMountRefCount
        (("/mnt/") ++ toString s.hunspellFactory.counter) 1)
        ⟨("/mnt/") ++ toString s.hunspellFactory.counter, bd⟩ =
        setEntry (setEntry s.fileMountRefCount
          (("/mnt/") ++ toString s.hunspellFactory.counter) 1)
          (("/mnt/") ++ toString s.hunspellFactory.counter) 2 := by
      rw [increaseRefCount]
      dsimp only
      norm_num [lookupEntry_setEntry_self]
    subst h1
    constructor
    · simp only [hm, hm2]
    · simp only [hm, hm2]
      rw [hr1, hr2, lookupEntry_setEntry_self]
  · intro s key da ba dd bd va vd na nd engine s2 hma hmd hvv hra hna hrd hnd
      hload
    rcases loadDictionary_ok_effects s key _ _ engine s2 hload with
      ⟨hnone, hne, _⟩
    have hguard : ¬(key = "" ∨ (lookupEntry s.spellCheckerTable key).isSome) := by
      rw [not_or]
      exact ⟨hne, by simp [hnone]⟩
    rw [loadDictionary_file_eq s key _ _ engine hguard] at hload
    have h1 := (congrArg Prod.fst hload).symm
    dsimp only at h1
    have hm1 : s.hunspellFactory.mountDirectory da = (va, s.hunspellFactory) := by
      rw [HunspellFactory.mountDirectory, hma]
    have hm2 : s.hunspellFactory.mountDirectory dd = (vd, s.hunspellFactory) := by
      rw [HunspellFactory.mountDirectory, hmd]
    have hr1 : increaseRefCount s.fileMountRefCount ⟨va, ba⟩ =
        setEntry s.fileMountRefCount va (na + 1) := by
      rw [increaseRefCount]
      dsimp only
      rw [hra]
      simp [hna.ne']
    have hr2 : increaseRefCount (setEntry s.fileMountRefCount va (na + 1))
        ⟨vd, bd⟩ =
        setEntry (setEntry s.fileMountRefCount va (na + 1)) vd (nd + 1) := by
      rw [increaseRefCount]
      dsimp only
      rw [lookupEntry_setEntry_ne _ _ _ _ (Ne.symm hvv), hrd]
      simp [hnd.ne']
    subst h1
    refine ⟨by simp only [hm1, hm2], ?_, ?_⟩
    · simp only [hm1, hm2]
      rw [hr1, hr2, lookupEntry_setEntry_ne _ _ _ _ hvv,
        lookupEntry_setEntry_self]
    · simp only [hm1, hm2]
      rw [hr1, hr2, lookupEntry_setEntry_self]

/-- C9 witness: loading two files from the fresh directory da creates one
mount and count two; loading a second dictionary from the same directory
adds no mount and two further increments; loading a dictionary whose two
files sit in the two distinct mounted directories da and db increments
each count by one. -/
theorem mountFileDictionary_refcount_witness :
    (stFileA.hunspellFactory.dirMounts = [(("/da"), ("/mnt/0"))] ∧
      lookupEntry stFileA.fileMountRefCount ("/mnt/0") = some 2) ∧
    ((loadDictionary stFileA ("a2")
        (.filePath ⟨("/da"), ("a2.dic")⟩) (.filePath ⟨("/da"), ("a2.aff")⟩)
        engNone).1.hunspellFactory.dirMounts =
          stFileA.hunspellFactory.dirMounts ∧
      lookupEntry (loadDictionary stFileA ("a2")
        (.filePath ⟨("/da"), ("a2.dic")⟩) (.filePath ⟨("/da"), ("a2.aff")⟩)
        engNone).1.fileMountRefCount ("/mnt/0") = some 4) ∧
    (lookupEntry (loadDictionary stFileB ("c")
        (.filePath ⟨("/db"), ("c.dic")⟩) (.filePath ⟨("/da"), ("c.aff")⟩)
        engNone).1.fileMountRefCount ("/mnt/0") = some 3 ∧
      lookupEntry (loadDictionary stFileB ("c")
        (.filePath ⟨("/db"), ("c.dic")⟩) (.filePath ⟨("/da"), ("c.aff")⟩)
        engNone).1.fileMountRefCount ("/mnt/1") = some 3) := by
  refine ⟨⟨?_, ?_⟩, ?_, ?_⟩
  · exact (mountFileDictionary_refcount.2.1 (SpellCheckerProvider.init true)
      ("a") ("/da") ("a.aff") ("a.dic") engNone stFileA
      (by decide) (by decide) rfl).1
  · exact (mountFileDictionary_refcount.2.1 (SpellCheckerProvider.init true)
      ("a") ("/da") ("a.aff") ("a.dic") engNone stFileA
      (by decide) (by decide) rfl).2
  · have h := mountFileDictionary_refcount.1 stFileA ("a2") ("/da")
      ("a2.aff") ("a2.dic") ("/mnt/0") 2 engNone
      (loadDictionary stFileA ("a2")
        (.filePath ⟨("/da"), ("a2.dic")⟩) (.filePath ⟨("/da"), ("a2.aff")⟩)
        engNone).1
      (by decide) (by decide) (by decide) rfl
    exact ⟨h.1, h.2⟩
  · have h := mountFileDictionary_refcount.2.2 stFileB ("c") ("/da")
      ("c.aff") ("/db") ("c.dic") ("/mnt/0") ("/mnt/1") 2 2 engNone
      (loadDictionary stFileB ("c")
        (.filePath ⟨("/db"), ("c.dic")⟩) (.filePath ⟨("/da"), ("c.aff")⟩)
        engNone).1
      (by decide) (by decide) (by decide) (by decide) (by decide) (by decide)
      (by decide) rfl
    exact ⟨h.2.1, h.2.2⟩

theorem decreaseRefCount_lookup_of_zero (rc : List (String × Int)) (p : FsPath)
    (h : (decreaseRefCount rc p).1 = 0) :
    lookupEntry (decreaseRefCount rc p).2 p.dir = none := by
  rcases h1 : lookupEntry rc p.dir with _ | v
  · simp [decreaseRefCount, h1]
  · by_cases hv : v > 0
    · by_cases hz : v - 1 = 0
      · simp [decreaseRefCount, h1, hv, hz, lookupEntry_setEntry_self,
          lookupEntry_eraseEntry_self]
      · exfalso
        simp [decreaseRefCount, h1, hv, hz, lookupEntry_setEntry_self] at h
    · by_cases hz : v = 0
      · simp [decreaseRefCount, h1, hv, hz, lookupEntry_eraseEntry_self]
      · exfalso
        simp [decreaseRefCount, h1, hv, hz] at h

theorem decreaseRefCount_lookup_ne (rc : List (String × Int)) (p : FsPath)
    (k : String) (hk : k ≠ p.dir) :
    lookupEntry (decreaseRefCount rc p).2 k = lookupEntry rc k := by
  simp only [decreaseRefCount]
  rcases h1 : lookupEntry rc p.dir with _ | v
  · simp only [h1]
  · simp only [h1]
    by_cases hv : v > 0
    · simp only [hv, if_pos, lookupEntry_setEntry_self]
      by_cases hz : v - 1 = 0
      · simp [hz, lookupEntry_eraseEntry_ne _ _ _ hk,
          lookupEntry_setEntry_ne _ _ _ _ hk]
      · simp [hz, lookupEntry_setEntry_ne _ _ _ _ hk]
    · simp only [hv, if_neg, not_false_iff, h1]
      by_cases hz : v = 0
      · simp [hz, lookupEntry_eraseEntry_ne _ _ _ hk]
      · simp [hz]

theorem decreaseRefCount_lookup_none (rc : List (String × Int)) (p : FsPath)
    (h : lookupEntry rc p.dir = none) : (decreaseRefCount rc p).2 = rc := by
  simp [decreaseRefCount, h]

theorem unmountOne_rc (st : HunspellFactory × List (String × Int))
    (p : FsPath) : (unmountOne st p).2 = (decreaseRefCount st.2 p).2 := by
  rcases heq : decreaseRefCount st.2 p with ⟨ref, rc⟩
  rw [unmountOne, heq]
  by_cases hz : ref = 0
  · simp [hz]
  · simp [hz]

theorem unmountOne_removed (st : HunspellFactory × List (String × Int))
    (p : FsPath) (v : String)
    (hv : v ∈ st.1.dirMounts.map Prod.snd)
    (hv2 : v ∉ (unmountOne st p).1.dirMounts.map Prod.snd) :
    (decreaseRefCount st.2 p).1 = 0 ∧ v = p.dir := by
  rcases heq : decreaseRefCount st.2 p with ⟨ref, rc⟩
  rw [unmountOne, heq] at hv2
  by_cases hz : ref = 0
  · simp only [hz, if_pos] at hv2
    refine ⟨by simp [heq, hz], ?_⟩
    by_contra hne
    apply hv2
    rcases List.mem_map.mp hv with ⟨kv, hkv, hsnd⟩
    refine List.mem_map.mpr ⟨kv, ?_, hsnd⟩
    simp only [HunspellFactory.unmount]
    refine List.mem_filter.mpr ⟨hkv, ?_⟩
    rw [hsnd]
    simpa using hne
  · simp only [hz, if_neg, not_false_iff] at hv2
    exact absurd hv hv2

theorem unmountFile_refcount_zero (f : HunspellFactory)
    (rc : List (String × Int)) (aff dic : FsPath) (v : String)
    (hv : v ∈ f.dirMounts.map Prod.snd)
    (hv2 : v ∉ (unmountFile (f, rc) aff dic).1.dirMounts.map Prod.snd) :
    lookupEntry (unmountFile (f, rc) aff dic).2 v = none := by
  by_cases h1 : v ∈ (unmountOne (f, rc) aff).1.dirMounts.map Prod.snd
  · rcases unmountOne_removed (unmountOne (f, rc) aff) dic v h1 hv2 with
      ⟨hz, hvd⟩
    rw [unmountFile, unmountOne_rc, hvd]
    exact decreaseRefCount_lookup_of_zero _ _ hz
  · rcases unmountOne_removed (f, rc) aff v hv h1 with ⟨hz, hva⟩
    have hnone1 : lookupEntry (unmountOne (f, rc) aff).2 v = none := by
      rw [unmountOne_rc, hva]
      exact decreaseRefCount_lookup_of_zero _ _ hz
    rw [unmountFile, unmountOne_rc]
    by_cases hd : v = dic.dir
    · rw [hd] at hnone1 ⊢
      rw [decreaseRefCount_lookup_none _ _ hnone1]
      exact hnone1
    · rw [decreaseRefCount_lookup_ne _ _ _ hd]
      exact hnone1

theorem unloadDictionary_dispose_effect (s : SpellCheckerProvider)
    (key : String) (entry : SpellChecker)
    (hl : lookupEntry s.spellCheckerTable key = some entry) (hke : key ≠ "") :
    (unloadDictionary s key).hunspellFactory =
      (applyDispose (s.hunspellFactory, s.fileMountRefCount)
        entry.disposeInfo).1 ∧
    (unloadDictionary s key).fileMountRefCount =
      (applyDispose (s.hunspellFactory, s.fileMountRefCount)
        entry.disposeInfo).2 := by
  have hguard : ¬(key = "" ∨ (lookupEntry s.spellCheckerTable key).isNone) := by
    rw [not_or]
    exact ⟨hke, by simp [hl]⟩
  rw [unloadDictionary.eq_def, if_neg hguard]
  rcases Bool.eq_false_or_eq_true (match s.currentSpellCheckerKey with
      | some currentKey => currentKey ≠ "" && currentKey == key
      | none => false) with hc | hc
  · by_cases hr : s.isRenderer
    · simp only [hc, if_pos, setProvider, hr, if_pos, hl]
      constructor <;> trivial
    · simp only [hc, if_pos, setProvider, hr, Bool.false_eq_true, if_neg,
        not_false_iff, hl]
      constructor <;> trivial
  · simp only [hc, Bool.false_eq_true, if_neg, not_false_iff, hl]
    constructor <;> trivial

theorem mountDirectory_mono (f : HunspellFactory) (d : String) (v : String)
    (hv : v ∈ f.dirMounts.map Prod.snd) :
    v ∈ (f.mountDirectory d).2.dirMounts.map Prod.snd := by
  rcases h1 : lookupEntry f.dirMounts d with _ | mp
  · simp only [HunspellFactory.mountDirectory, h1]
    simp only [List.map_append]
    exact List.mem_append_left _ hv
  · simp only [HunspellFactory.mountDirectory, h1]
    exact hv

theorem setProvider_factory (x : SpellCheckerProvider) (cb : InstalledCallback) :
    (setProvider x cb).hunspellFactory = x.hunspellFactory := by
  rw [setProvider]
  split
  · rfl
  · rfl

/-- C2: a physical directory mount is released only at ref count zero.  An
unloadDictionary call on a file-backed entry that unmounts a directory
leaves that directory with no remaining ref count entry (count zero);
loadDictionary never unmounts a directory and switchDictionary never
touches the factory; and in the shared-directory scenario starting from a
fresh provider, loading two dictionaries whose four files live in one
directory, unloading the first leaves the directory mounted while
unloading the second unmounts it. -/
theorem refcount_unmount_policy :
    (∀ (s : SpellCheckerProvider) (key : String) (entry : SpellChecker)
      (aff dic : FsPath) (v : String),
      lookupEntry s.spellCheckerTable key = some entry →
      entry.disposeInfo = .file aff dic →
      v ∈ s.hunspellFactory.dirMounts.map Prod.snd →
      v ∉ (unloadDictionary s key).hunspellFactory.dirMounts.map Prod.snd →
      lookupEntry (unloadDictionary s key).fileMountRefCount v = none) ∧
    (∀ (s : SpellCheckerProvider) (key : String) (dic aff : DictSource)
      (engine : Hunspell) (v : String),
      v ∈ s.hunspellFactory.dirMounts.map Prod.snd →
      v ∈ (loadDictionary s key dic aff
        engine).1.hunspellFactory.dirMounts.map Prod.snd) ∧
    (∀ (s : SpellCheckerProvider) (key : String) (checkAll : Bool)
      (now : Nat),
      (switchDictionary s key checkAll now).1.hunspellFactory =
        s.hunspellFactory) ∧
    (∀ (kA kB dirP b1 b2 b3 b4 : String) (eA eB : Hunspell),
      kA ≠ "" → kB ≠ "" → kA ≠ kB →
      dirP ∈ ((unloadDictionary
        (loadDictionary
          (loadDictionary (SpellCheckerProvider.init true) kA
            (.filePath ⟨dirP, b1⟩) (.filePath ⟨dirP, b2⟩) eA).1 kB
          (.filePath ⟨dirP, b3⟩) (.filePath ⟨dirP, b4⟩) eB).1
        kA).hunspellFactory.dirMounts.map Prod.fst) ∧
      dirP ∉ ((unloadDictionary (unloadDictionary
        (loadDictionary
          (loadDictionary (SpellCheckerProvider.init true) kA
            (.filePath ⟨dirP, b1⟩) (.filePath ⟨dirP, b2⟩) eA).1 kB
          (.filePath ⟨dirP, b3⟩) (.filePath ⟨dirP, b4⟩) eB).1
        kA) kB).hunspellFactory.dirMounts.map Prod.fst)) := by
  refine ⟨?_, ?_, ?_, ?_⟩
  · intro s key entry aff dic v hl hinfo hv hv2
    by_cases hke : key = ""
    · have hid : unloadDictionary s key = s := by
        rw [unloadDictionary.eq_def, if_pos (Or.inl hke)]
      rw [hid] at hv2
      exact absurd hv hv2
    · rcases unloadDictionary_dispose_effect s key entry hl hke with ⟨hf, hrc⟩
      have ha : applyDispose (s.hunspellFactory, s.fileMountRefCount)
          entry.disposeInfo =
          unmountFile (s.hunspellFactory, s.fileMountRefCount) aff dic := by
        rw [hinfo]
        rfl
      rw [hf, ha] at hv2
      rw [hrc, ha]
      exact unmountFile_refcount_zero s.hunspellFactory s.fileMountRefCount
        aff dic v hv hv2
  · intro s key dic aff engine v hv
    by_cases hg : key = "" ∨ (lookupEntry s.spellCheckerTable key).isSome
    · rw [loadDictionary.eq_def, if_pos hg]
      exact hv
    · rw [loadDictionary.eq_def, if_neg hg]
      rcases dic with pd | _ <;> rcases aff with pa | _ <;> dsimp only
      · exact mountDirectory_mono _ _ v (mountDirectory_mono _ _ v hv)
      · exact hv
      · exact hv
      · exact hv
  · intro s key checkAll now
    by_cases hg : key = "" ∨ (lookupEntry s.spellCheckerTable key).isNone
    · rw [switchDictionary.eq_def, if_pos hg]
    · rw [switchDictionary.eq_def, if_neg hg]
      dsimp only [attach]
      rw [setProvider_factory]
      dsimp only
      split
      · rfl
      · split
        · rfl
        · split
          · rfl
          · split
            · rfl
            · rfl
  · intro kA kB dirP b1 b2 b3 b4 eA eB hkA hkB hkAB
    have hg1 : ¬(kA = "" ∨ (lookupEntry
        (SpellCheckerProvider.init true).spellCheckerTable kA).isSome) := by
      simp [SpellCheckerProvider.init, lookupEntry, hkA]
    have e1 : loadDictionary (SpellCheckerProvider.init true) kA
        (.filePath ⟨dirP, b1⟩) (.filePath ⟨dirP, b2⟩) eA =
        ({ hunspellFactory :=
            { dirMounts := [(dirP, ("/mnt/0"))], bufMounts := [], counter := 1 }
           spellCheckerTable :=
            [(kA, ⟨eA, 0, .file ⟨("/mnt/0"), b2⟩ ⟨("/mnt/0"), b1⟩⟩)]
           currentSpellCheckerKey := none
           currentSpellCheckerStartTime := none
           fileMountRefCount := [(("/mnt/0"), 2)]
           isRenderer := true
           installedCallback := none }, .ok ()) := by
      rw [loadDictionary_file_eq _ kA ⟨dirP, b1⟩ ⟨dirP, b2⟩ eA hg1]
      simp [SpellCheckerProvider.init, HunspellFactory.mountDirectory,
        lookupEntry, increaseRefCount, setEntry]
      decide
    have hg2 : ¬(kB = "" ∨ (lookupEntry
        [(kA, (⟨eA, 0, .file ⟨("/mnt/0"), b2⟩ ⟨("/mnt/0"), b1⟩⟩ :
          SpellChecker))] kB).isSome) := by
      simp [lookupEntry, hkB, hkAB]
    have e2 : loadDictionary
        ({ hunspellFactory :=
            { dirMounts := [(dirP, ("/mnt/0"))], bufMounts := [], counter := 1 }
           spellCheckerTable :=
            [(kA, ⟨eA, 0, .file ⟨("/mnt/0"), b2⟩ ⟨("/mnt/0"), b1⟩⟩)]
           currentSpellCheckerKey := none
           currentSpellCheckerStartTime := none
           fileMountRefCount := [(("/mnt/0"), 2)]
           isRenderer := true
           installedCallback := none } : SpellCheckerProvider) kB
        (.filePath ⟨dirP, b3⟩) (.filePath ⟨dirP, b4⟩) eB =
        ({ hunspellFactory :=
            { dirMounts := [(dirP, ("/mnt/0"))], bufMounts := [], counter := 1 }
           spellCheckerTable :=
            [(kA, ⟨eA, 0, .file ⟨("/mnt/0"), b2⟩ ⟨("/mnt/0"), b1⟩⟩),
             (kB, ⟨eB, 0, .file ⟨("/mnt/0"), b4⟩ ⟨("/mnt/0"), b3⟩⟩)]
           currentSpellCheckerKey := none
           currentSpellCheckerStartTime := none
           fileMountRefCount := [(("/mnt/0"), 4)]
           isRenderer := true
           installedCallback := none }, .ok ()) := by
      rw [loadDictionary_file_eq _ kB ⟨dirP, b3⟩ ⟨dirP, b4⟩ eB hg2]
      simp [HunspellFactory.mountDirectory, lookupEntry, increaseRefCount,
        setEntry, hkAB]
    have e3 : unloadDictionary
        ({ hunspellFactory :=
            { dirMounts := [(dirP, ("/mnt/0"))], bufMounts := [], counter := 1 }
           spellCheckerTable :=
            [(kA, ⟨eA, 0, .file ⟨("/mnt/0"), b2⟩ ⟨("/mnt/0"), b1⟩⟩),
             (kB, ⟨eB, 0, .file ⟨("/mnt/0"), b4⟩ ⟨("/mnt/0"), b3⟩⟩)]
           currentSpellCheckerKey := none
           currentSpellCheckerStartTime := none
           fileMountRefCount := [(("/mnt/0"), 4)]
           isRenderer := true
           installedCallback := none } : SpellCheckerProvider) kA =
        ({ hunspellFactory :=
            { dirMounts := [(dirP, ("/mnt/0"))], bufMounts := [], counter := 1 }
           spellCheckerTable :=
            [(kB, ⟨eB, 0, .file ⟨("/mnt/0"), b4⟩ ⟨("/mnt/0"), b3⟩⟩)]
           currentSpellCheckerKey := none
           currentSpellCheckerStartTime := none
           fileMountRefCount := [(("/mnt/0"), 2)]
           isRenderer := true
           installedCallback := none } : SpellCheckerProvider) := by
      rw [unloadDictionary_not_current _ kA
        ⟨eA, 0, .file ⟨("/mnt/0"), b2⟩ ⟨("/mnt/0"), b1⟩⟩
        (by simp [lookupEntry]) hkA (by simp)]
      simp [applyDispose, unmountFile, unmountOne, decreaseRefCount,
        HunspellFactory.unmount, lookupEntry, setEntry, eraseEntry, hkAB,
        Ne.symm hkAB]
    have e4 : unloadDictionary
        ({ hunspellFactory :=
            { dirMounts := [(dirP, ("/mnt/0"))], bufMounts := [], counter := 1 }
           spellCheckerTable :=
            [(kB, ⟨eB, 0, .file ⟨("/mnt/0"), b4⟩ ⟨("/mnt/0"), b3⟩⟩)]
           currentSpellCheckerKey := none
           currentSpellCheckerStartTime := none
           fileMountRefCount := [(("/mnt/0"), 2)]
           isRenderer := true
           installedCallback := none } : SpellCheckerProvider) kB =
        ({ hunspellFactory :=
            { dirMounts := [], bufMounts := [], counter := 1 }
           spellCheckerTable := []
           currentSpellCheckerKey := none
           currentSpellCheckerStartTime := none
           fileMountRefCount := []
           isRenderer := true
           installedCallback := none } : SpellCheckerProvider) := by
      rw [unloadDictionary_not_current _ kB
        ⟨eB, 0, .file ⟨("/mnt/0"), b4⟩ ⟨("/mnt/0"), b3⟩⟩
        (by simp [lookupEntry]) hkB (by simp)]
      simp [applyDispose, unmountFile, unmountOne, decreaseRefCount,
        HunspellFactory.unmount, lookupEntry, setEntry, eraseEntry]
    constructor
    · rw [e1]
      dsimp only
      rw [e2]
      dsimp only
      rw [e3]
      simp
    · rw [e1]
      dsimp only
      rw [e2]
      dsimp only
      rw [e3, e4]
      simp

/-- C2 witness: unloading the only dictionary of a file-loaded state
unmounts its directory with the ref count entry gone; a buffer load keeps
existing mounts; a switch keeps the whole factory; and in the concrete
shared-directory scenario the directory survives the first unload and is
gone after the second. -/
theorem refcount_unmount_policy_witness :
    lookupEntry (unloadDictionary stFileA ("a")).fileMountRefCount
      ("/mnt/0") = none ∧
    ("/mnt/0") ∈ (loadDictionary stFileA ("c") .buffer .buffer
      engNone).1.hunspellFactory.dirMounts.map Prod.snd ∧
    (switchDictionary stTwo ("en-gb") false 300).1.hunspellFactory =
      stTwo.hunspellFactory ∧
    (("/shared") ∈ ((unloadDictionary
      (loadDictionary
        (loadDictionary (SpellCheckerProvider.init true) ("a")
          (.filePath ⟨("/shared"), ("a.dic")⟩)
          (.filePath ⟨("/shared"), ("a.aff")⟩) engNone).1 ("b")
        (.filePath ⟨("/shared"), ("b.dic")⟩)
        (.filePath ⟨("/shared"), ("b.aff")⟩) engNone).1
      ("a")).hunspellFactory.dirMounts.map Prod.fst) ∧
    ("/shared") ∉ ((unloadDictionary (unloadDictionary
      (loadDictionary
        (loadDictionary (SpellCheckerProvider.init true) ("a")
          (.filePath ⟨("/shared"), ("a.dic")⟩)
          (.filePath ⟨("/shared"), ("a.aff")⟩) engNone).1 ("b")
        (.filePath ⟨("/shared"), ("b.dic")⟩)
        (.filePath ⟨("/shared"), ("b.aff")⟩) engNone).1
      ("a")) ("b")).hunspellFactory.dirMounts.map Prod.fst)) := by
  refine ⟨?_, ?_, ?_, ?_⟩
  · exact refcount_unmount_policy.1 stFileA ("a")
      ⟨engNone, 0, .file ⟨("/mnt/0"), ("a.aff")⟩ ⟨("/mnt/0"), ("a.dic")⟩⟩
      ⟨("/mnt/0"), ("a.aff")⟩ ⟨("/mnt/0"), ("a.dic")⟩ ("/mnt/0")
      rfl rfl (by decide) (by decide)
  · exact refcount_unmount_policy.2.1 stFileA ("c") .buffer .buffer engNone
      ("/mnt/0") (by decide)
  · exact refcount_unmount_policy.2.2.1 stTwo ("en-gb") false 300
  · exact refcount_unmount_policy.2.2.2 ("a") ("b") ("/shared") ("a.dic")
      ("a.aff") ("b.dic") ("b.aff") engNone engNone
      (by decide) (by decide) (by decide)

theorem setProvider_table (x : SpellCheckerProvider) (cb : InstalledCallback) :
    (setProvider x cb).spellCheckerTable = x.spellCheckerTable := by
  rw [setProvider]
  split
  · rfl
  · rfl

theorem attach_table (x : SpellCheckerProvider) (key : String) (ca : Bool) :
    (attach x key ca).spellCheckerTable = x.spellCheckerTable :=
  setProvider_table x _

theorem loadDictionary_table (s : SpellCheckerProvider) (key : String)
    (dic aff : DictSource) (engine : Hunspell) :
    (loadDictionary s key dic aff engine).1.spellCheckerTable =
      s.spellCheckerTable ∨
    (lookupEntry s.spellCheckerTable key = none ∧
      ∃ di, (loadDictionary s key dic aff engine).1.spellCheckerTable =
        setEntry s.spellCheckerTable key ⟨engine, 0, di⟩) := by
  by_cases hg : key = "" ∨ (lookupEntry s.spellCheckerTable key).isSome
  · left
    rw [loadDictionary.eq_def, if_pos hg]
  · have hnone : lookupEntry s.spellCheckerTable key = none := by
      rcases ho : lookupEntry s.spellCheckerTable key with _ | d
      · rfl
      · exact absurd (Or.inr (by simp [ho])) hg
    rw [loadDictionary.eq_def, if_neg hg]
    rcases dic with pd | _ <;> rcases aff with pa | _ <;> dsimp only
    · exact Or.inr ⟨hnone, _, rfl⟩
    · exact Or.inl rfl
    · exact Or.inl rfl
    · exact Or.inr ⟨hnone, _, rfl⟩

theorem unloadDictionary_table (s : SpellCheckerProvider) (key : String) :
    (unloadDictionary s key).spellCheckerTable = s.spellCheckerTable ∨
    (unloadDictionary s key).spellCheckerTable =
      eraseEntry s.spellCheckerTable key := by
  rw [unloadDictionary.eq_def]
  by_cases hg : key = "" ∨ (lookupEntry s.spellCheckerTable key).isNone
  · left
    rw [if_pos hg]
  · rw [if_neg hg]
    rcases Bool.eq_false_or_eq_true (match s.currentSpellCheckerKey with
        | some currentKey => currentKey ≠ "" && currentKey == key
        | none => false) with hc | hc
    · simp only [hc, if_pos]
      rcases hl2 : lookupEntry (setProvider { s with
          currentSpellCheckerKey := none
          currentSpellCheckerStartTime := none }
          (.alwaysCorrect key)).spellCheckerTable key with _ | d
      · left
        exact setProvider_table _ _
      · right
        simp only
        rw [setProvider_table]
    · simp only [hc, Bool.false_eq_true, if_neg, not_false_iff]
      rcases hl2 : lookupEntry s.spellCheckerTable key with _ | d
      · left
        rfl
      · right
        simp only

theorem switchDictionary_table (s : SpellCheckerProvider) (key : String)
    (ca : Bool) (now : Nat) :
    (switchDictionary s key ca now).1.spellCheckerTable =
      s.spellCheckerTable ∨
    ∃ ck st entry, s.currentSpellCheckerKey = some ck ∧
      s.currentSpellCheckerStartTime = some st ∧
      lookupEntry s.spellCheckerTable ck = some entry ∧
      (switchDictionary s key ca now).1.spellCheckerTable =
        setEntry s.spellCheckerTable ck
          ({ entry with uptime := entry.uptime + ((now : Int) - (st : Int)) }) := by
  rw [switchDictionary.eq_def]
  by_cases hg : key = "" ∨ (lookupEntry s.spellCheckerTable key).isNone
  · left
    rw [if_pos hg]
  · rw [if_neg hg]
    dsimp only
    rcases hst : s.currentSpellCheckerStartTime with _ | st
    · left
      rw [attach_table]
    · rcases hck : s.currentSpellCheckerKey with _ | ck
      · left
        rw [attach_table]
      · by_cases hce : ck = ""
        · left
          simp only [hce, if_pos]
          rw [attach_table]
        · rcases hl : lookupEntry s.spellCheckerTable ck with _ | entry
          · left
            simp only [hce, if_neg, not_false_iff, hl]
            rw [attach_table]
          · right
            refine ⟨ck, st, entry, rfl, rfl, hl, ?_⟩
            simp only [hce, if_neg, not_false_iff, hl]
            rw [attach_table]

theorem setProvider_startTime (x : SpellCheckerProvider)
    (cb : InstalledCallback) :
    (setProvider x cb).currentSpellCheckerStartTime =
      x.currentSpellCheckerStartTime := by
  rw [setProvider]
  split
  · rfl
  · rfl

theorem loadDictionary_startTime (s : SpellCheckerProvider) (key : String)
    (dic aff : DictSource) (engine : Hunspell) :
    (loadDictionary s key dic aff engine).1.currentSpellCheckerStartTime =
      s.currentSpellCheckerStartTime := by
  by_cases hg : key = "" ∨ (lookupEntry s.spellCheckerTable key).isSome
  · rw [loadDictionary.eq_def, if_pos hg]
  · rw [loadDictionary.eq_def, if_neg hg]
    rcases dic with pd | _ <;> rcases aff with pa | _ <;> rfl

theorem unloadDictionary_startTime (s : SpellCheckerProvider) (key : String) :
    (unloadDictionary s key).currentSpellCheckerStartTime =
      s.currentSpellCheckerStartTime ∨
    (unloadDictionary s key).currentSpellCheckerStartTime = none := by
  rw [unloadDictionary.eq_def]
  by_cases hg : key = "" ∨ (lookupEntry s.spellCheckerTable key).isNone
  · left
    rw [if_pos hg]
  · rw [if_neg hg]
    rcases Bool.eq_false_or_eq_true (match s.currentSpellCheckerKey with
        | some currentKey => currentKey ≠ "" && currentKey == key
        | none => false) with hc | hc
    · simp only [hc, if_pos]
      rcases hl2 : lookupEntry (setProvider { s with
          currentSpellCheckerKey := none
          currentSpellCheckerStartTime := none }
          (.alwaysCorrect key)).spellCheckerTable key with _ | d
      · right
        exact setProvider_startTime _ _
      · right
        simp only
        rw [setProvider_startTime]
    · simp only [hc, Bool.false_eq_true, if_neg, not_false_iff]
      rcases hl2 : lookupEntry s.spellCheckerTable key with _ | d
      · left
        rfl
      · left
        simp only

theorem switchDictionary_startTime (s : SpellCheckerProvider) (key : String)
    (ca : Bool) (now : Nat) :
    (switchDictionary s key ca now).1.currentSpellCheckerStartTime =
      s.currentSpellCheckerStartTime ∨
    (switchDictionary s key ca now).1.currentSpellCheckerStartTime =
      some now := by
  rw [switchDictionary.eq_def]
  by_cases hg : key = "" ∨ (lookupEntry s.spellCheckerTable key).isNone
  · left
    rw [if_pos hg]
  · right
    rw [if_neg hg]
    dsimp only [attach]
    rw [setProvider_startTime]

theorem clockLE_mono (s : SpellCheckerProvider) (t t2 : Nat)
    (h : ClockLE s t) (hle : t ≤ t2) : ClockLE s t2 :=
  fun st hst => le_trans (h st hst) hle

theorem step_clockLE (s : SpellCheckerProvider) (op : Op) (now : Nat)
    (h : ClockLE s now) : ClockLE (step s (op, now)) now := by
  rcases op with ⟨key, dic, aff, engine⟩ | key | ⟨key, ca⟩
  · intro st hst
    rw [step, loadDictionary_startTime] at hst
    exact h st hst
  · intro st hst
    rw [step] at hst
    rcases unloadDictionary_startTime s key with h2 | h2
    · rw [h2] at hst
      exact h st hst
    · rw [h2] at hst
      exact absurd hst (by simp)
  · intro st hst
    rw [step] at hst
    rcases switchDictionary_startTime s key ca now with h2 | h2
    · rw [h2] at hst
      exact h st hst
    · rw [h2] at hst
      exact le_of_eq (Option.some.inj hst).symm

theorem step_uptime_mono (s : SpellCheckerProvider) (op : Op) (now : Nat)
    (k : String) (e e2 : SpellChecker)
    (hclock : ClockLE s now)
    (h1 : lookupEntry s.spellCheckerTable k = some e)
    (h2 : lookupEntry (step s (op, now)).spellCheckerTable k = some e2) :
    e.uptime ≤ e2.uptime := by
  rcases op with ⟨key, dic, aff, engine⟩ | key | ⟨key, ca⟩
  · rw [step] at h2
    rcases loadDictionary_table s key dic aff engine with ht | ⟨hn, di, ht⟩
    · rw [ht, h1] at h2
      exact le_of_eq (congrArg SpellChecker.uptime (Option.some.inj h2))
    · by_cases hk : k = key
      · rw [hk, hn] at h1
        exact absurd h1 (by simp)
      · rw [ht, lookupEntry_setEntry_ne _ _ _ _ hk, h1] at h2
        exact le_of_eq (congrArg SpellChecker.uptime (Option.some.inj h2))
  · rw [step] at h2
    rcases unloadDictionary_table s key with ht | ht
    · rw [ht, h1] at h2
      exact le_of_eq (congrArg SpellChecker.uptime (Option.some.inj h2))
    · by_cases hk : k = key
      · rw [ht, hk, lookupEntry_eraseEntry_self] at h2
        exact absurd h2 (by simp)
      · rw [ht, lookupEntry_eraseEntry_ne _ _ _ hk, h1] at h2
        exact le_of_eq (congrArg SpellChecker.uptime (Option.some.inj h2))
  · rw [step] at h2
    rcases switchDictionary_table s key ca now with ht | ⟨ck, st, entry, hck, hst, hl, ht⟩
    · rw [ht, h1] at h2
      exact le_of_eq (congrArg SpellChecker.uptime (Option.some.inj h2))
    · by_cases hk : k = ck
      · rw [hk] at h1
        have he : e = entry := Option.some.inj (h1.symm.trans hl)
        rw [ht, hk, lookupEntry_setEntry_self] at h2
        have he2 := Option.some.inj h2
        rw [← he2, he]
        have hstle : st ≤ now := hclock st hst
        have : (0 : Int) ≤ (now : Int) - (st : Int) := by
          omega
        simp only
        omega
      · rw [ht, lookupEntry_setEntry_ne _ _ _ _ hk, h1] at h2
        exact le_of_eq (congrArg SpellChecker.uptime (Option.some.inj h2))

theorem run_uptime_mono (tr : List (Op × Nat)) :
    ∀ (s : SpellCheckerProvider) (t0 : Nat) (k : String)
      (e e2 : SpellChecker),
    ClockLE s t0 → Chrono t0 tr → keptAlong s k tr →
    lookupEntry s.spellCheckerTable k = some e →
    lookupEntry (run s tr).spellCheckerTable k = some e2 →
    e.uptime ≤ e2.uptime := by
  induction tr with
  | nil =>
    intro s t0 k e e2 _ _ _ h1 h2
    rw [run] at h2
    rw [h1] at h2
    exact le_of_eq (congrArg SpellChecker.uptime (Option.some.inj h2))
  | cons hd rest ih =>
    intro s t0 k e e2 hclock hchrono hkept h1 h2
    rcases hd with ⟨op, t⟩
    rcases hchrono with ⟨ht0, hchrono2⟩
    rcases hkept with ⟨hsome, hkept2⟩
    rcases Option.isSome_iff_exists.mp hsome with ⟨e1, he1⟩
    have hstep := step_uptime_mono s op t k e e1
      (clockLE_mono s t0 t hclock ht0) h1 he1
    have hrest := ih (step s (op, t)) t k e1 e2
      (step_clockLE s op t (clockLE_mono s t0 t hclock ht0))
      hchrono2 hkept2 he1 h2
    exact le_trans hstep hrest

theorem setProvider_key (x : SpellCheckerProvider) (cb : InstalledCallback) :
    (setProvider x cb).currentSpellCheckerKey = x.currentSpellCheckerKey := by
  rw [setProvider]
  split
  · rfl
  · rfl

/-- C5: a successful switch away from a selected dictionary first credits
the elapsed wall-clock time since the last selection event to the
previously selected entry (so a switch T milliseconds after the previous
one increases that uptime by exactly T), then records the new key and
start timestamp; and across any chronological sequence of load, unload and
switch calls during which a key stays registered, that key never loses
uptime. -/
theorem switch_uptime_accounting :
    (∀ (s : SpellCheckerProvider) (key : String) (ca : Bool) (now : Nat)
      (ck : String) (st : Nat) (e : SpellChecker),
      s.currentSpellCheckerKey = some ck → ck ≠ "" →
      s.currentSpellCheckerStartTime = some st →
      lookupEntry s.spellCheckerTable ck = some e →
      key ≠ "" → (lookupEntry s.spellCheckerTable key).isSome →
      lookupEntry (switchDictionary s key ca now).1.spellCheckerTable ck =
        some ({ e with uptime := e.uptime + ((now : Int) - (st : Int)) }) ∧
      (switchDictionary s key ca now).1.currentSpellCheckerKey = some key ∧
      (switchDictionary s key ca now).1.currentSpellCheckerStartTime =
        some now) ∧
    (∀ (tr : List (Op × Nat)) (s : SpellCheckerProvider) (t0 : Nat)
      (k : String) (e e2 : SpellChecker),
      ClockLE s t0 → Chrono t0 tr → keptAlong s k tr →
      lookupEntry s.spellCheckerTable k = some e →
      lookupEntry (run s tr).spellCheckerTable k = some e2 →
      e.uptime ≤ e2.uptime) := by
  constructor
  · intro s key ca now ck st e hck hce hst hl hke hkey
    have hguard : ¬(key = "" ∨ (lookupEntry s.spellCheckerTable key).isNone) := by
      rw [not_or]
      refine ⟨hke, ?_⟩
      rcases ho : lookupEntry s.spellCheckerTable key with _ | d
      · rw [ho] at hkey
        exact absurd hkey (by simp)
      · simp [ho]
    rw [switchDictionary.eq_def, if_neg hguard]
    dsimp only
    simp only [hst, hck, hce, if_neg, not_false_iff, hl]
    refine ⟨?_, ?_, ?_⟩
    · rw [attach_table]
      exact lookupEntry_setEntry_self _ _ _
    · rw [attach, setProvider_key]
    · rw [attach, setProvider_startTime]
  · intro tr s t0 k e e2 hclock hchrono hkept h1 h2
    exact run_uptime_mono tr s t0 k e e2 hclock hchrono hkept h1 h2

/-- C5 witness: on the concrete state selected on en-us since time 100
with uptime 5, switching to en-gb at time 107 flushes exactly 7 into the
en-us entry, selects en-gb and restarts the clock; and over that one-step
chronological trace the en-us uptime does not decrease. -/
theorem switch_uptime_accounting_witness :
    (lookupEntry (switchDictionary stTwo ("en-gb") true 107).1.spellCheckerTable
      ("en-us") =
      some ⟨engA, 12, .buffer ("/buf/0") ("/buf/1")⟩ ∧
    (switchDictionary stTwo ("en-gb") true 107).1.currentSpellCheckerKey =
      some ("en-gb") ∧
    (switchDictionary stTwo ("en-gb") true 107).1.currentSpellCheckerStartTime =
      some 107) ∧
    ((⟨engA, 5, .buffer ("/buf/0") ("/buf/1")⟩ : SpellChecker).uptime ≤
      (⟨engA, 12, .buffer ("/buf/0") ("/buf/1")⟩ : SpellChecker).uptime) := by
  constructor
  · exact switch_uptime_accounting.1 stTwo ("en-gb") true 107 ("en-us") 100
      ⟨engA, 5, .buffer ("/buf/0") ("/buf/1")⟩
      rfl (by decide) rfl rfl (by decide) (by decide)
  · exact switch_uptime_accounting.2 [((Op.switch ("en-gb") true), 107)]
      stTwo 100 ("en-us")
      ⟨engA, 5, .buffer ("/buf/0") ("/buf/1")⟩
      ⟨engA, 12, .buffer ("/buf/0") ("/buf/1")⟩
      (by intro st h; simp [stTwo] at h; omega)
      ⟨by omega, trivial⟩
      ⟨by decide, trivial⟩
      rfl rfl

end ElectronHunspell
